import Mathlib

set_option maxRecDepth 40000

/-!
Verification development for the execution core of the piccolo Lua runtime
(`thread.rs`, `meta_ops.rs`, `async_callback.rs`).

The embedding translates the Rust sources into executable Lean definitions:

* GC pointers (`Gc`, `GcCell`) become numeric identities into an explicit heap
  (`Heap`), so that objects shared between threads (tables, user data,
  up-value cells) can be mutated by explicit state passing.
* Rust panics (`expect`, `unwrap`, slice indexing out of bounds, `panic!`)
  become `none` / a dedicated `panicked` result; recoverable `Result` errors
  become dedicated error results that keep the mutated state, exactly as a
  `&mut` borrow does in Rust.
* The value type, tables and the value-arithmetic helpers live in
  `value.rs` / `table.rs`, which are not part of the provided sources; those
  definitions are modelled from the spec and are marked as such.  Floating
  point `Number` values are carried as their raw IEEE-754 bit pattern; the
  only float operation the claims depend on is the NaN test, which is decoded
  from the bits.  Cross-tag Integer/Number numeric equality is not modelled
  (no claim exercises it).
-/

namespace Luster

/-- Modelled from the spec: `VarCount` — "compact representation of either a
known small count or variable"; `to_constant`/`is_variable` are its observers
used throughout `thread.rs`. -/
inductive VarCount where
  | variable
  | const (n : Nat)
deriving Repr, DecidableEq

def VarCount.to_constant : VarCount → Option Nat
  | .variable => none
  | .const n => some n

def VarCount.is_variable : VarCount → Bool
  | .variable => true
  | .const _ => false

/-- Up-value descriptors of a prototype (`UpValueDescriptor` in the source). -/
inductive UpValueDescriptor where
  | environment
  | parentLocal (reg : Nat)
  | outer (idx : Nat)
deriving Repr

/-- Modelled from the spec: constants pool entries (non-GC constants).
`number` carries the raw IEEE-754 bit pattern. -/
inductive Constant where
  | nil
  | boolean (b : Bool)
  | integer (i : Int)
  | number (bits : Nat)
  | str (s : String)
deriving Repr

/-- Opcode set, taken from the `match op` dispatch in `Thread::step_lua`.
Register/constant indices are `Nat`, jump offsets are `Int` (i16 in source). -/
inductive OpCode where
  | Move (dest source : Nat)
  | LoadConstant (dest constant : Nat)
  | LoadBool (dest : Nat) (value skip_next : Bool)
  | LoadNil (dest count : Nat)
  | NewTable (dest : Nat)
  | GetTableR (dest table key : Nat)
  | GetTableC (dest table key : Nat)
  | SetTableRR (table key value : Nat)
  | SetTableRC (table key value : Nat)
  | SetTableCR (table key value : Nat)
  | SetTableCC (table key value : Nat)
  | GetUpTableR (dest table key : Nat)
  | GetUpTableC (dest table key : Nat)
  | SetUpTableRR (table key value : Nat)
  | SetUpTableRC (table key value : Nat)
  | SetUpTableCR (table key value : Nat)
  | SetUpTableCC (table key value : Nat)
  | Call (func : Nat) (args returns : VarCount)
  | TailCall (func : Nat) (args : VarCount)
  | Return (start : Nat) (count : VarCount)
  | VarArgs (dest : Nat) (count : VarCount)
  | Jump (offset : Int) (close_upvalues : Option Nat)
  | Test (value : Nat) (is_true : Bool)
  | TestSet (dest value : Nat) (is_true : Bool)
  | Closure (proto dest : Nat)
  | NumericForPrep (base : Nat) (jump : Int)
  | NumericForLoop (base : Nat) (jump : Int)
  | GenericForCall (base : Nat) (var_count : Nat)
  | GenericForLoop (base : Nat) (jump : Int)
  | SelfR (base table key : Nat)
  | SelfC (base table key : Nat)
  | Concat (dest source count : Nat)
  | GetUpValue (source dest : Nat)
  | SetUpValue (source dest : Nat)
  | Length (dest source : Nat)
  | EqRR (skip_if : Bool) (left right : Nat)
  | EqRC (skip_if : Bool) (left right : Nat)
  | EqCR (skip_if : Bool) (left right : Nat)
  | EqCC (skip_if : Bool) (left right : Nat)
  | Not (dest source : Nat)
  | AddRR (dest left right : Nat)
  | AddRC (dest left right : Nat)
  | AddCR (dest left right : Nat)
  | AddCC (dest left right : Nat)
  | SubRR (dest left right : Nat)
  | SubRC (dest left right : Nat)
  | SubCR (dest left right : Nat)
  | SubCC (dest left right : Nat)
  | MulRR (dest left right : Nat)
  | MulRC (dest left right : Nat)
  | MulCR (dest left right : Nat)
  | MulCC (dest left right : Nat)
deriving Repr

/-- Prototype of a compiled function: constants, opcodes, nested prototypes,
up-value descriptors, fixed parameter count, frame size. -/
inductive Prototype where
  | mk (constants : List Constant) (opcodes : List OpCode)
      (prototypes : List Prototype) (upvalues : List UpValueDescriptor)
      (fixed_params : Nat) (stack_size : Nat)

def Prototype.constants : Prototype → List Constant
  | .mk c _ _ _ _ _ => c

def Prototype.opcodes : Prototype → List OpCode
  | .mk _ o _ _ _ _ => o

def Prototype.prototypes : Prototype → List Prototype
  | .mk _ _ p _ _ _ => p

def Prototype.upvalues : Prototype → List UpValueDescriptor
  | .mk _ _ _ u _ _ => u

def Prototype.fixed_params : Prototype → Nat
  | .mk _ _ _ _ f _ => f

def Prototype.stack_size : Prototype → Nat
  | .mk _ _ _ _ _ s => s

mutual
/-- Modelled from the spec: the tagged value union of `value.rs` (not in the
provided sources).  GC objects (tables, threads, user data) are carried as
numeric heap identities; strings are interned, so a Lean `String` models one;
`number` is the raw IEEE-754 bit pattern of an `f64`. -/
inductive Value where
  | nil
  | boolean (b : Bool)
  | integer (i : Int)
  | number (bits : Nat)
  | str (s : String)
  | table (id : Nat)
  | function (f : Function)
  | thread (id : Nat)
  | userdata (id : Nat)

/-- A Lua function value: an interpreted closure or a host callback. -/
inductive Function where
  | closure (c : Closure)
  | callback (cb : Callback)

/-- A closure: allocation identity (models the `Gc` pointer, used for
identity equality), prototype, and bound up-value cell ids. -/
inductive Closure where
  | mk (cid : Nat) (proto : Prototype) (upvalues : List Nat)

/-- Host callbacks.  `host` is an arbitrary embedder callback (opaque).  The
remaining constructors are the synthetic callbacks that `meta_ops.rs` builds
with `Callback::from_fn` / `from_fn_with`: the `__index` chain hop, the
`__newindex` chain hop, and the `__call` chain hop capturing `(v, f)`. -/
inductive Callback where
  | host (id : Nat)
  | indexChain
  | newIndexChain
  | callChain (v f : Value)
end

def Closure.cid : Closure → Nat
  | .mk c _ _ => c

def Closure.proto : Closure → Prototype
  | .mk _ p _ => p

def Closure.upvalues : Closure → List Nat
  | .mk _ _ u => u

/-- NaN test decoded from an IEEE-754 bit pattern: exponent all ones and a
non-zero mantissa. -/
def isNanBits (bits : Nat) : Bool :=
  (bits >>> 52) % 2048 == 2047 && bits % (2 ^ 52) != 0

/-- Zero test (positive or negative zero) on an IEEE-754 bit pattern. -/
def isZeroBits (bits : Nat) : Bool :=
  bits % (2 ^ 63) == 0

/-- Modelled from the spec: IEEE-754 equality on raw bit patterns — NaN is
unequal to everything, positive and negative zero are equal, any other pair
compares by bits. -/
def numEqBits (a b : Nat) : Bool :=
  if isNanBits a || isNanBits b then false
  else if isZeroBits a && isZeroBits b then true
  else a == b

/-- Modelled from the spec: decode an IEEE-754 double bit pattern to the
exact integer it denotes, when it denotes one (`none` for NaN, the
infinities, and finite non-integral values).  Backs the cross-tag
Integer/Number "numeric equivalence" of value equality (also visible in the
source's `meta_ops::equal`: `Integer(a) == Number(b)` iff `a as f64 == b`). -/
def bitsToInt (bits : Nat) : Option Int :=
  let sign := bits >>> 63
  let e := (bits >>> 52) % 2048
  let m := bits % 2 ^ 52
  if e == 2047 then none
  else if e == 0 then
    if m == 0 then some 0 else none
  else
    let mfull := 2 ^ 52 + m
    if 1075 ≤ e then
      let v : Int := Int.ofNat (mfull * 2 ^ (e - 1075))
      some (if sign == 1 then -v else v)
    else if mfull % 2 ^ (1075 - e) == 0 then
      let v : Int := Int.ofNat (mfull / 2 ^ (1075 - e))
      some (if sign == 1 then -v else v)
    else none

mutual
/-- Modelled from the spec: value equality — "by tag then by value; tables,
threads, closures, user-data compare by identity; Integer⇄Number compares by
numeric equivalence" (an integer equals a float precisely when the float
denotes that integer exactly). -/
def Value.veq : Value → Value → Bool
  | .nil, .nil => true
  | .boolean a, .boolean b => a == b
  | .integer a, .integer b => a == b
  | .number a, .number b => numEqBits a b
  | .integer a, .number b => bitsToInt b == some a
  | .number a, .integer b => bitsToInt a == some b
  | .str a, .str b => a == b
  | .table a, .table b => a == b
  | .thread a, .thread b => a == b
  | .userdata a, .userdata b => a == b
  | .function f, .function g => Function.feq f g
  | _, _ => false

/-- Function equality: closures and host callbacks by identity; the synthetic
chain callbacks by their captures. -/
def Function.feq : Function → Function → Bool
  | .closure c1, .closure c2 =>
    match c1, c2 with
    | .mk a _ _, .mk b _ _ => a == b
  | .callback x, .callback y => Callback.cbeq x y
  | _, _ => false

/-- Callback equality. -/
def Callback.cbeq : Callback → Callback → Bool
  | .host a, .host b => a == b
  | .indexChain, .indexChain => true
  | .newIndexChain, .newIndexChain => true
  | .callChain v1 f1, .callChain v2 f2 => Value.veq v1 v2 && Value.veq f1 f2
  | _, _ => false
end

def Value.isNil : Value → Bool
  | .nil => true
  | _ => false

/-- Modelled from the spec: `Value::type_name` — both integers and floats
report "number", as in Lua. -/
def Value.type_name : Value → String
  | .nil => "nil"
  | .boolean _ => "boolean"
  | .integer _ => "number"
  | .number _ => "number"
  | .str _ => "string"
  | .table _ => "table"
  | .function _ => "function"
  | .thread _ => "thread"
  | .userdata _ => "userdata"

/-- Modelled from the spec: truthiness — nil and false are falsy. -/
def Value.to_bool : Value → Bool
  | .nil => false
  | .boolean b => b
  | _ => true

/-- Modelled from the spec: logical not (`Value::not`). -/
def Value.not_ (v : Value) : Value :=
  .boolean (!v.to_bool)

def Constant.to_value : Constant → Value
  | .nil => .nil
  | .boolean b => .boolean b
  | .integer i => .integer i
  | .number bits => .number bits
  | .str s => .str s

/-- Modelled from the spec: constant equality (the source compares `Constant`
values directly in `OpCode::EqCC`). -/
def Constant.ceq : Constant → Constant → Bool
  | .nil, .nil => true
  | .boolean a, .boolean b => a == b
  | .integer a, .integer b => a == b
  | .number a, .number b => numEqBits a b
  | .str a, .str b => a == b
  | _, _ => false

/-- Modelled from the spec: value-type arithmetic helpers (`Value::add` etc.
live in `value.rs`, listed by the spec as external collaborators).  Only
integer arithmetic is modelled; anything involving floats or non-numbers
yields `none` (no claim depends on these operations). -/
def Value.add : Value → Value → Option Value
  | .integer a, .integer b => some (.integer (a + b))
  | _, _ => none

/-- Modelled from the spec: see `Value.add`. -/
def Value.subtract : Value → Value → Option Value
  | .integer a, .integer b => some (.integer (a - b))
  | _, _ => none

/-- Modelled from the spec: see `Value.add`. -/
def Value.multiply : Value → Value → Option Value
  | .integer a, .integer b => some (.integer (a * b))
  | _, _ => none

/-- Modelled from the spec: see `Value.add`; `less_than` yields a `Bool` as
in the source (`Option<bool>`). -/
def Value.less_than : Value → Value → Option Bool
  | .integer a, .integer b => some (decide (a < b))
  | _, _ => none

/-- The two states of an up-value cell (`UpValueState` in the source):
`Open(owner_thread, stack_index)` or `Closed(value)`. -/
inductive UpValueState where
  | openUv (thread : Nat) (ind : Nat)
  | closedUv (v : Value)

/-- Modelled from the spec: a table's storage — an association list of
key/value entries plus an optional metatable identity.  Lookup uses value
equality; setting a key overwrites the first matching entry or appends. -/
structure TableData where
  entries : List (Value × Value)
  metatable : Option Nat

def lookupEntry (es : List (Value × Value)) (k : Value) : Option Value :=
  (es.find? (fun p => p.1.veq k)).map (·.2)

def setEntry : List (Value × Value) → Value → Value → List (Value × Value)
  | [], k, v => [(k, v)]
  | (k', v') :: rest, k, v =>
    if k'.veq k then (k', v) :: rest else (k', v') :: setEntry rest k v

/-- Raw table read: nil when the key is absent. -/
def TableData.rawGet (td : TableData) (k : Value) : Value :=
  (lookupEntry td.entries k).getD .nil

/-- Modelled from the spec: Nil and NaN are forbidden as table keys. -/
def validKey : Value → Bool
  | .nil => false
  | .number bits => !isNanBits bits
  | _ => true

/-- Invalid-key error (`InvalidTableKey`). -/
inductive InvalidTableKey where
  | isNil
  | isNaN
deriving Repr

/-- The explicit heap standing in for the GC arena: tables, user-data
metatables, up-value cells, and a counter for fresh closure identities. -/
structure Heap where
  tables : List TableData
  userdatas : List (Option Nat)
  uvcells : List UpValueState
  nextCid : Nat

/-- Replace the element at an index, leaving the list unchanged when the index
is out of bounds (unreachable for identities created by allocation). -/
def modifyAt (l : List α) (i : Nat) (f : α → α) : List α :=
  match l.get? i with
  | some a => l.set i (f a)
  | none => l

def Heap.tableGet (h : Heap) (tid : Nat) (k : Value) : Value :=
  match h.tables.get? tid with
  | some td => td.rawGet k
  | none => .nil

def Heap.tableMeta (h : Heap) (tid : Nat) : Option Nat :=
  (h.tables.get? tid).bind (·.metatable)

def Heap.udMeta (h : Heap) (uid : Nat) : Option Nat :=
  (h.userdatas.get? uid).getD none

/-- Table write (`Table::set_value`): errors on a Nil or NaN key, otherwise
stores the value. -/
def Heap.tableSet (h : Heap) (tid : Nat) (k v : Value) :
    Except InvalidTableKey Heap :=
  match k with
  | .nil => .error .isNil
  | .number bits =>
    if isNanBits bits then .error .isNaN
    else .ok { h with
      tables := modifyAt h.tables tid
        (fun td => { td with entries := setEntry td.entries k v }) }
  | _ => .ok { h with
    tables := modifyAt h.tables tid
      (fun td => { td with entries := setEntry td.entries k v }) }

/-- Modelled from the spec: table length — a border `n` with `t[n] ≠ nil` and
`t[n+1] = nil`; this model counts consecutive integer keys from 1. -/
def Heap.tableLength (h : Heap) (tid : Nat) : Int :=
  let rec go (fuel : Nat) (n : Nat) : Nat :=
    match fuel with
    | 0 => n
    | fuel + 1 =>
      if (h.tableGet tid (.integer (n + 1))).isNil then n
      else go fuel (n + 1)
  Int.ofNat (go ((h.tables.get? tid).elim 0 (·.entries.length)) 0)

/-! ## Metamethod dispatch (`meta_ops.rs`) -/

/-- The metamethod selector (`MetaMethod` in `meta_ops.rs`). -/
inductive MetaMethod where
  | Len | Index | NewIndex | Call | Pairs | ToString | Eq
  | Add | Sub | Mul | Div | Mod | Pow | Unm | IDiv
  | BAnd | BOr | BXor | BNot | Shl | Shr | Concat | Lt | Le
deriving Repr

/-- Name of a metamethod (`MetaMethod::name`). -/
def MetaMethod.name : MetaMethod → String
  | .Len => "__len"
  | .Index => "__index"
  | .NewIndex => "__newindex"
  | .Call => "__call"
  | .Pairs => "__pairs"
  | .ToString => "__tostring"
  | .Eq => "__eq"
  | .Add => "__add"
  | .Sub => "__sub"
  | .Mul => "__mul"
  | .Div => "__div"
  | .Mod => "__mod"
  | .Pow => "__pow"
  | .Unm => "__unm"
  | .IDiv => "__idiv"
  | .BAnd => "__band"
  | .BOr => "__bor"
  | .BXor => "__bxor"
  | .BNot => "__bnot"
  | .Shl => "__shl"
  | .Shr => "__shr"
  | .Concat => "__concat"
  | .Lt => "__lt"
  | .Le => "__le"

/-- A deferred metamethod invocation (`MetaCall { function, args }`). -/
structure MetaCall where
  function : Function
  args : List Value

/-- Result of metamethod resolution: a direct value or a deferred call
(`MetaResult`). -/
inductive MetaResult where
  | value (v : Value)
  | call (c : MetaCall)

/-- Error raised when a value cannot be called (`MetaCallError(type_name)`). -/
structure MetaCallError where
  type_name : String
deriving Repr

/-- Error taxonomy of the metamethod layer (`MetaOperatorError`). -/
inductive MetaOperatorError where
  | call (m : MetaMethod) (e : MetaCallError)
  | unary (m : MetaMethod) (t : String)
  | binary (m : MetaMethod) (l r : String)
  | indexKeyError (e : InvalidTableKey)
deriving Repr

namespace meta_ops

/-- The metatable of a value, when it is a table or user data
(`get_metatable`). -/
def get_metatable (h : Heap) (val : Value) : Option Nat :=
  match val with
  | .table t => h.tableMeta t
  | .userdata u => h.udMeta u
  | _ => none

/-- Look up metamethod `m` on the value's metatable, filtering out nil
(`get_metamethod`). -/
def get_metamethod (h : Heap) (val : Value) (m : MetaMethod) : Option Value :=
  ((get_metatable h val).map (fun mt => h.tableGet mt (.str m.name))).filter
    (fun v => !v.isNil)

/-- Is a value one of the shapes accepted by the `__call` lookup match arm
(`Function | Table | UserData`)? -/
def callShape : Value → Bool
  | .function _ => true
  | .table _ => true
  | .userdata _ => true
  | _ => false

/-- Resolve a value to a callable (`meta_ops::call`): a function is returned
as-is, otherwise the `__call` metamethod is consulted; an acceptable `__call`
entry is wrapped in the synthetic chain callback capturing `(v, f)`. -/
def call (h : Heap) (v : Value) : Except MetaCallError Function :=
  match v with
  | .function f => .ok f
  | _ =>
    let mt : Option Nat :=
      match v with
      | .table t => h.tableMeta t
      | .userdata u => h.udMeta u
      | _ => none
    match mt with
    | none => .error ⟨v.type_name⟩
    | some metatable =>
      let f := h.tableGet metatable (.str MetaMethod.Call.name)
      if callShape f then .ok (.callback (.callChain v f))
      else .error ⟨f.type_name⟩

/-- The `__index` entry found on a table's metatable (nil when the table has
no metatable); mirrors the lookup inside `meta_ops::index`. -/
def tableIndexMeta (h : Heap) (tid : Nat) : Value :=
  match h.tableMeta tid with
  | some mt => h.tableGet mt (.str MetaMethod.Index.name)
  | none => .nil

/-- The `__newindex` entry found on a table's metatable; mirrors the lookup
inside `meta_ops::new_index`. -/
def tableNewIndexMeta (h : Heap) (tid : Nat) : Value :=
  match h.tableMeta tid with
  | some mt => h.tableGet mt (.str MetaMethod.NewIndex.name)
  | none => .nil

/-- Indexing resolution (`meta_ops::index`): a present table entry is returned
directly; otherwise `__index` is consulted — a table/user-data `__index`
becomes one chain hop through the synthetic `indexChain` callback, a callable
`__index` becomes a deferred call. -/
def index (h : Heap) (table key : Value) :
    Except MetaOperatorError MetaResult := do
  let idx ← match table with
    | .table tid =>
      let v := h.tableGet tid key
      if !v.isNil then return .value v
      else
        let idx := tableIndexMeta h tid
        if idx.isNil then return .value .nil
        else pure idx
    | .userdata u =>
      if (h.udMeta u).isSome then
        let idx :=
          match h.udMeta u with
          | some mt => h.tableGet mt (.str MetaMethod.Index.name)
          | none => .nil
        if idx.isNil then throw (.unary .Index table.type_name)
        else pure idx
      else throw (.unary .Index table.type_name)
    | _ => throw (.unary .Index table.type_name)
  match idx with
  | .table _ => pure (.call ⟨.callback .indexChain, [table, key]⟩)
  | .userdata _ => pure (.call ⟨.callback .indexChain, [table, key]⟩)
  | _ => do
    let f ← (call h idx).mapError (MetaOperatorError.call .Index)
    pure (.call ⟨f, [table, key]⟩)

/-- Index-assignment resolution (`meta_ops::new_index`): a present entry is
overwritten in place; an absent entry with no `__newindex` is stored directly;
otherwise a deferred call is produced (synthetic `newIndexChain` hop for a
table/user-data `__newindex`, the resolved callable otherwise). -/
def new_index (h : Heap) (table key value : Value) :
    Except MetaOperatorError (Heap × Option MetaCall) := do
  let idx ← match table with
    | .table tid =>
      let v := h.tableGet tid key
      if !v.isNil then
        -- If the value is present in the table, then we do not invoke the
        -- metamethod.
        let h' ← (h.tableSet tid key value).mapError .indexKeyError
        return (h', none)
      else
        let idx := tableNewIndexMeta h tid
        if idx.isNil then
          -- If we do not have a __newindex metamethod, then just set the
          -- table value directly.
          let h' ← (h.tableSet tid key value).mapError .indexKeyError
          return (h', none)
        else pure idx
    | .userdata u =>
      if (h.udMeta u).isSome then
        let idx :=
          match h.udMeta u with
          | some mt => h.tableGet mt (.str MetaMethod.NewIndex.name)
          | none => .nil
        if idx.isNil then throw (.unary .NewIndex table.type_name)
        else pure idx
      else throw (.unary .NewIndex table.type_name)
    | _ => throw (.unary .NewIndex table.type_name)
  match idx with
  | .table _ => pure (h, some ⟨.callback .newIndexChain, [table, key, value]⟩)
  | .userdata _ =>
    pure (h, some ⟨.callback .newIndexChain, [table, key, value]⟩)
  | _ => do
    let f ← (call h idx).mapError (MetaOperatorError.call .NewIndex)
    pure (h, some ⟨f, [table, key, value]⟩)

/-- Binary metamethod resolution (`meta_metaop`): table/user-data operands
consult metatables (lhs before rhs); pure operands attempt the constant
operation; failures produce `Binary` errors.  `const_op` is the
operator-specific constant folding passed by `add`, `subtract`, …. -/
def meta_metaop (h : Heap) (lhs rhs : Value) (method : MetaMethod)
    (const_op : Value → Value → Option Value) :
    Except MetaOperatorError MetaResult :=
  let tu : Value → Bool := fun v =>
    match v with
    | .table _ => true
    | .userdata _ => true
    | _ => false
  if tu lhs && tu rhs then
    match get_metamethod h lhs method with
    | some m => do
      let f ← (call h m).mapError (MetaOperatorError.call method)
      pure (.call ⟨f, [lhs, rhs]⟩)
    | none =>
      match get_metamethod h rhs method with
      | some m => do
        let f ← (call h m).mapError (MetaOperatorError.call method)
        pure (.call ⟨f, [lhs, rhs]⟩)
      | none => throw (.binary method lhs.type_name rhs.type_name)
  else if tu lhs then
    match get_metamethod h lhs method with
    | some m => do
      let f ← (call h m).mapError (MetaOperatorError.call method)
      pure (.call ⟨f, [lhs, rhs]⟩)
    | none => throw (.binary method lhs.type_name rhs.type_name)
  else if tu rhs then
    match get_metamethod h rhs method with
    | some m => do
      let f ← (call h m).mapError (MetaOperatorError.call method)
      pure (.call ⟨f, [lhs, rhs]⟩)
    | none => throw (.binary method lhs.type_name rhs.type_name)
  else
    match const_op lhs rhs with
    | some v => pure (.value v)
    | none => throw (.binary method lhs.type_name rhs.type_name)

/-- Abbreviation used in theorem statements: is a value a table or user data
(the guard of the metatable-consulting branches of `meta_metaop`)? -/
def isTU : Value → Bool
  | .table _ => true
  | .userdata _ => true
  | _ => false

/-- What a callback returns in the one-shot model: final results on the stack,
or a further call (`CallbackReturn::Return` / `CallbackReturn::Call`). -/
inductive CBRet where
  | ret (vals : List Value)
  | callF (c : MetaCall)

/-- Behavior of the synthetic `__index` chain callback (the closure built by
`Callback::from_fn` inside `meta_ops::index`): read `(table, key)` from the
stack — a missing slot reads as nil — clear it, and perform one further
`index` step, returning either the found value or the next deferred call. -/
def runIndexChain (h : Heap) (stack : List Value) :
    Except MetaOperatorError CBRet := do
  let table := (stack.get? 0).getD .nil
  let key := (stack.get? 1).getD .nil
  match ← index h table key with
  | .value v => pure (.ret [v])
  | .call c => pure (.callF c)

/-- Behavior of the synthetic `__newindex` chain callback from
`meta_ops::new_index`: consume `(table, key, value)` from the stack (any other
arity fails the conversion, modelled as a panic via `none`) and perform one
further `new_index` step. -/
def runNewIndexChain (h : Heap) (stack : List Value) :
    Option (Except MetaOperatorError (Heap × CBRet)) :=
  match stack with
  | [table, key, value] =>
    some (do
      match ← new_index h table key value with
      | (h', some c) => pure (h', .callF c)
      | (h', none) => pure (h', .ret []))
  | _ => none

/-- Behavior of the synthetic `__call` chain callback from `meta_ops::call`
capturing `(v, f)`: push `v` in front of the arguments and call the resolution
of `f`. -/
def runCallChain (h : Heap) (v f : Value) (stack : List Value) :
    Except MetaCallError CBRet := do
  let fn ← call h f
  pure (.callF ⟨fn, v :: stack⟩)

/-- Observer used by counterexample statements: is a resolution result a
deferred metamethod call? -/
def isDeferredCall : Except MetaOperatorError MetaResult → Bool
  | .ok (.call _) => true
  | _ => false

end meta_ops

/-! ## Thread state machine and interpreter (`thread.rs`) -/

/-- Frame kinds (`FrameType`): a Lua frame with register base and program
counter, a host-callback frame, a yield marker, or a not-yet-started
coroutine. -/
inductive FrameType where
  | lua (base pc : Nat)
  | callback
  | yield
  | coroutineStart (f : Function)

/-- How a frame delivers its results (`FrameReturn`): surface them at a call
boundary, or hand the given number of results to the frame above. -/
inductive FrameReturn where
  | callBoundary
  | upper (returns : VarCount)
deriving DecidableEq

/-- One entry of a thread's call stack (`Frame`). -/
structure Frame where
  bottom : Nat
  top : Nat
  frame_type : FrameType
  frame_return : FrameReturn
  yieldable : Bool

/-- The mutable state of one thread (`ThreadState`): value stack, frame stack
(top of stack at the END of the list, as in the source `Vec`), and the sorted
map of open up-values (stack index to cell identity). -/
structure ThreadState where
  stack : List Value
  frames : List Frame
  open_upvalues : List (Nat × Nat)

/-- The whole mutable world visible to one `step_lua`/`resume` invocation:
the identity of `self`, the `&mut ThreadState` of `self`, the stacks of other
threads (reachable through shared up-value cells), and the GC heap. -/
structure VM where
  selfId : Nat
  cur : ThreadState
  otherStacks : List (Nat × List Value)
  heap : Heap

/-- Thread errors (`ThreadError`). -/
inductive ThreadError where
  | badYield
  | badResume
deriving DecidableEq, Repr

/-- The fatal-error union (`Error<'gc>`) restricted to the variants the
interpreter itself can raise. -/
inductive LuaError where
  | thread (e : ThreadError)
  | typeError (expected found : String)
deriving DecidableEq, Repr

/-- A pending host-callback sequence, abstracted to the callback identity and
the captured argument vector (the host side is external code). -/
structure PendingCallback where
  callback : Callback
  args : List Value

/-- Result of one `step_lua` slice (`ThreadResult`). -/
inductive ThreadResult where
  | unfinished
  | finished (vals : List Value)
  | pendingCallback (p : PendingCallback)

/-- List write with the source's panic-on-out-of-bounds behavior. -/
def setIdx (l : List α) (i : Nat) (v : α) : Option (List α) :=
  if i < l.length then some (l.set i v) else none

/-- Model of `Vec::resize(n, fill)`: truncate or pad to length `n`. -/
def resizeList (l : List α) (n : Nat) (fill : α) : List α :=
  l.take n ++ List.replicate (n - l.length) fill

def lookupOther (vm : VM) (tid : Nat) : Option (List Value) :=
  (vm.otherStacks.find? (fun p => p.1 == tid)).map (·.2)

def setOtherStack (vm : VM) (tid ind : Nat) (v : Value) : Option VM := do
  let s ← lookupOther vm tid
  let s' ← setIdx s ind v
  some { vm with
    otherStacks := vm.otherStacks.map
      (fun p => if p.1 == tid then (p.1, s') else p) }

def setUvCell (vm : VM) (uvid : Nat) (s : UpValueState) : VM :=
  { vm with heap :=
    { vm.heap with uvcells := modifyAt vm.heap.uvcells uvid (fun _ => s) } }

/-- Close a list of up-value cells (the body of the `for` loop shared by
`Thread::close_upvalues` and the `Jump` close path): an `Open(thread, ind)`
cell captures the current slot — from `self`'s stack or from the owning
thread's stack — and becomes `Closed`; already-closed cells are skipped. -/
def closeCells (vm : VM) : List (Nat × Nat) → Option VM
  | [] => some vm
  | (_, uvid) :: rest => do
    let cell ← vm.heap.uvcells.get? uvid
    match cell with
    | .openUv t ind => do
      let v ←
        if t = vm.selfId then vm.cur.stack.get? ind
        else do
          let s ← lookupOther vm t
          s.get? ind
      closeCells (setUvCell vm uvid (.closedUv v)) rest
    | .closedUv _ => closeCells vm rest

/-- Close every open up-value at stack index `bottom` or above
(`Thread::close_upvalues`).  `BTreeMap::split_off(&bottom)` removes exactly
the entries with key `≥ bottom`; on the sorted association list this is the
second component of `partition`. -/
def close_upvalues (vm : VM) (bottom : Nat) : Option VM :=
  let parts := vm.cur.open_upvalues.partition (fun p => p.1 < bottom)
  closeCells { vm with cur := { vm.cur with open_upvalues := parts.1 } }
    parts.2

/-- Pop frames until (and including) one whose return is a `CallBoundary` —
the loop at the start of `Thread::unwind`, run on the reversed frame list
(frames are stored bottom-first, the loop pops from the top). -/
def popToBoundary : List Frame → Option (List Frame × Frame)
  | [] => none
  | f :: rest =>
    if f.frame_return = .callBoundary then some (rest, f)
    else popToBoundary rest

/-- Unwind after a fatal error (`Thread::unwind`): pop frames down to and
including the nearest call boundary, close every up-value at or above that
frame's bottom, then resize the stack to the new top frame's recorded `top`
(when frames remain). -/
def unwind (vm : VM) : Option VM := do
  let (restRev, bframe) ← popToBoundary vm.cur.frames.reverse
  let vm' ← close_upvalues
    { vm with cur := { vm.cur with frames := restRev.reverse } } bframe.bottom
  match vm'.cur.frames.getLast? with
  | some f =>
    some { vm' with cur :=
      { vm'.cur with stack := resizeList vm'.cur.stack f.top .nil } }
  | none => some vm'

/-- Panic-on-mismatch closure accessor (`get_closure`). -/
def get_closure (v : Value) : Option Closure :=
  match v with
  | .function (.closure c) => some c
  | _ => none

/-- Table accessor raising a `TypeError` (`get_table`). -/
def get_table (v : Value) : Except LuaError Nat :=
  match v with
  | .table t => .ok t
  | v => .error (.typeError "table" v.type_name)

/-- Program-counter arithmetic with checked overflow (`add_offset`). -/
def add_offset (pc : Nat) (offset : Int) : Option Nat :=
  if offset > 0 then some (pc + offset.toNat)
  else if offset < 0 then
    if (-offset).toNat ≤ pc then some (pc - (-offset).toNat) else none
  else some pc

/-- Reading an up-value (`get_upvalue`): an open cell owned by `self` reads
from the region below the register base (`upper_stack`), an open cell of
another thread reads that thread's stack, a closed cell holds its value. -/
def get_upvalue (vm : VM) (base uvid : Nat) : Option Value := do
  let cell ← vm.heap.uvcells.get? uvid
  match cell with
  | .openUv t ind =>
    if t = vm.selfId then
      if ind < base then vm.cur.stack.get? ind else none
    else do
      let s ← lookupOther vm t
      s.get? ind
  | .closedUv v => some v

/-- Outcome of executing one opcode: fall through to the quota check, restart
the dispatch loop (`continue 'start`), return a `ThreadResult`, propagate a
recoverable error (keeping the mutated state, as the `&mut` borrow does), or
hit a Rust panic. -/
inductive ExecResult where
  | inner (vm : VM)
  | start (vm : VM)
  | done (vm : VM) (r : ThreadResult)
  | fail (vm : VM) (e : LuaError)
  | panicked

def pOp : Option VM → ExecResult
  | some vm => .inner vm
  | none => .panicked

/-- Read a register of the current frame (`stack_frame[i]`, panics out of
bounds). -/
def sfGet (vm : VM) (base i : Nat) : Option Value :=
  vm.cur.stack.get? (base + i)

/-- Write a register of the current frame. -/
def sfSet (vm : VM) (base i : Nat) (v : Value) : Option VM := do
  let s ← setIdx vm.cur.stack (base + i) v
  some { vm with cur := { vm.cur with stack := s } }

/-- Write registers `i, i+1, …, i+n-1` of the current frame (the `LoadNil`
loop). -/
def sfFill (vm : VM) (base : Nat) : Nat → Nat → Option VM
  | _, 0 => some vm
  | i, n + 1 => do
    let vm' ← sfSet vm base i .nil
    sfFill vm' base (i + 1) n

/-- Ascending copy loop `for i in 0..n { s[dst+i] = s[src+i] }` over the raw
stack, with reads seeing earlier writes, exactly as in the source. -/
def copyLoop (s : List Value) (dst src n : Nat) : Option (List Value) :=
  match n with
  | 0 => some s
  | n + 1 => do
    let v ← s.get? src
    let s' ← setIdx s dst v
    copyLoop s' (dst + 1) (src + 1) n

/-- Ascending fill loop `for i in 0..n { s[dst+i] = v }` over the raw
stack. -/
def fillLoop (s : List Value) (dst n : Nat) (v : Value) : Option (List Value) :=
  match n with
  | 0 => some s
  | n + 1 => do
    let s' ← setIdx s dst v
    fillLoop s' (dst + 1) n v

/-- Program counter of the top frame (the `*pc` borrow in `step_lua`). -/
def getPc (vm : VM) : Option Nat :=
  match vm.cur.frames.getLast? with
  | some f =>
    match f.frame_type with
    | .lua _ pc => some pc
    | _ => none
  | none => none

/-- Write the top frame's program counter (writes through the `*pc` borrow;
a no-op on a malformed state, which the dispatch loop has already ruled
out). -/
def setPc (vm : VM) (pc : Nat) : VM :=
  match vm.cur.frames.getLast? with
  | some f =>
    match f.frame_type with
    | .lua base _ =>
      { vm with cur := { vm.cur with frames :=
          vm.cur.frames.dropLast ++
            [{ f with frame_type := .lua base pc }] } }
    | _ => vm
  | none => vm

/-- Bump the top frame's program counter by one (`*pc += 1` for skips). -/
def bumpPc (vm : VM) : Option VM := do
  let pc ← getPc vm
  some (setPc vm (pc + 1))

/-- Push a function-call frame for a closure (`Thread::call_closure`):
truncate to the supplied arguments, rotate extra arguments below the fixed
parameters (the vararg region), resize to the prototype's frame size and push
a `Lua` frame. -/
def call_closure (vm : VM) (function_index : Nat) (args : VarCount)
    (frame_return : FrameReturn) (yieldable : Bool) : Option VM := do
  let fv ← vm.cur.stack.get? function_index
  let closure ← get_closure fv
  let arg_count :=
    args.to_constant.getD (vm.cur.stack.length - function_index - 1)
  let fixed_params := closure.proto.fixed_params
  let (stack1, base) ←
    if arg_count > fixed_params then do
      let s := vm.cur.stack.take (function_index + 1 + arg_count)
      let pre := s.take (function_index + 1)
      let tail := s.drop (function_index + 1)
      -- `[T]::rotate_left(mid)` panics when `mid` exceeds the slice length
      if fixed_params ≤ tail.length then
        some (pre ++ (tail.drop fixed_params ++ tail.take fixed_params),
          function_index + 1 + (arg_count - fixed_params))
      else none
    else some (vm.cur.stack, function_index + 1)
  let top := base + closure.proto.stack_size
  let stack2 := resizeList stack1 top .nil
  some { vm with cur := { vm.cur with
    stack := stack2,
    frames := vm.cur.frames ++
      [(⟨function_index, top, .lua base 0, frame_return, yieldable⟩ :
        Frame)] } }

/-- Start a host callback (`Thread::call_callback`): capture the arguments,
push a `Callback` frame whose `top` equals its `bottom`, and shrink the stack
back to the function slot. -/
def call_callback (vm : VM) (function_index : Nat) (args : VarCount)
    (frame_return : FrameReturn) (yieldable : Bool) :
    Option (VM × PendingCallback) := do
  let fv ← vm.cur.stack.get? function_index
  let cb ←
    match fv with
    | .function (.callback c) => some c
    | _ => none
  let arg_count :=
    args.to_constant.getD (vm.cur.stack.length - function_index - 1)
  let argv ←
    if function_index + 1 + arg_count ≤ vm.cur.stack.length then
      some ((vm.cur.stack.drop (function_index + 1)).take arg_count)
    else none
  let vm1 := { vm with cur := { vm.cur with
    frames := vm.cur.frames ++
      [(⟨function_index, function_index, .callback, frame_return,
        yieldable⟩ : Frame)] } }
  let vm2 := { vm1 with cur := { vm1.cur with
    stack := resizeList vm1.cur.stack function_index .nil } }
  some (vm2, ⟨cb, argv⟩)

/-- Recoverable result of `Thread::call_function`. -/
inductive CallRes where
  | ok (r : ThreadResult)
  | err (e : LuaError)

/-- Dispatch a call on the value at `function_index`
(`Thread::call_function`): closures run interpreted, callbacks become a
pending host sequence, anything else is a `TypeError`. -/
def call_function (vm : VM) (function_index : Nat) (args : VarCount)
    (frame_return : FrameReturn) (yieldable : Bool) :
    Option (VM × CallRes) := do
  let fv ← vm.cur.stack.get? function_index
  match fv with
  | .function (.closure _) => do
    let vm' ← call_closure vm function_index args frame_return yieldable
    some (vm', .ok .unfinished)
  | .function (.callback _) => do
    let (vm', p) ← call_callback vm function_index args frame_return yieldable
    some (vm', .ok (.pendingCallback p))
  | v => some (vm, .err (.typeError "function" v.type_name))

/-- What `Thread::call` / `Thread::resume` hand back to the embedder: an
immediately-failed sequence, an immediately-completed sequence, or a live
`ThreadSequence { pending_callback, current_frame }`. -/
inductive ResumeOut where
  | seqErr (e : LuaError)
  | seqOk (vals : List Value)
  | threadSeq (pending : Option PendingCallback) (current_frame : Option Nat)

/-- Ascending write loop `for i in 0..vals.len() { s[dst+i] = vals[i] }`. -/
def writeVals (s : List Value) (dst : Nat) :
    List Value → Option (List Value)
  | [] => some s
  | v :: rest => do
    let s' ← setIdx s dst v
    writeVals s' (dst + 1) rest

/-- Push a function and arguments and enter it at a call boundary
(`Thread::sequence_function`). -/
def sequence_function (vm : VM) (function : Function) (args : List Value)
    (yieldable : Bool) : Option (VM × ResumeOut) := do
  let closure_index := vm.cur.stack.length
  let vm1 := { vm with cur := { vm.cur with
    stack := vm.cur.stack ++ [Value.function function] ++ args } }
  let (vm', res) ←
    call_function vm1 closure_index .variable .callBoundary yieldable
  match res with
  | .err e => some (vm', .seqErr e)
  | .ok .unfinished =>
    some (vm', .threadSeq none (some (vm'.cur.frames.length - 1)))
  | .ok (.finished r) => some (vm', .seqOk r)
  | .ok (.pendingCallback p) =>
    some (vm', .threadSeq (some p) (some (vm'.cur.frames.length - 1)))

/-- Is the thread suspended — top frame a yield marker or an unstarted
coroutine (`Thread::is_suspended`)? -/
def is_suspended (vm : VM) : Bool :=
  match vm.cur.frames.getLast? with
  | some last_frame =>
    match last_frame.frame_type with
    | .yield => true
    | .coroutineStart _ => true
    | _ => false
  | none => false

/-- Call a function on the thread (`Thread::call`). -/
def threadCall (vm : VM) (function : Function) (args : List Value) :
    Option (VM × ResumeOut) :=
  sequence_function vm function args false

/-- A freshly created suspended coroutine (`Thread::new_coroutine`). -/
def new_coroutine (function : Function) : ThreadState :=
  { stack := []
    frames := [⟨0, 0, .coroutineStart function, .callBoundary, true⟩]
    open_upvalues := [] }

/-- Resume a suspended thread (`Thread::resume`): an empty frame stack is
`BadResume`; otherwise the top frame is popped — a `CoroutineStart` enters its
function, a `Yield` places the arguments per the recorded return contract (an
`Upper` yield writes them into the frame's return slots, a `CallBoundary`
yield completes immediately with the arguments), and any other frame kind is
`BadResume`. -/
def resume (vm : VM) (args : List Value) : Option (VM × ResumeOut) :=
  match vm.cur.frames.getLast? with
  | none => some (vm, .seqErr (.thread .badResume))
  | some last_frame =>
    let vm1 := { vm with cur :=
      { vm.cur with frames := vm.cur.frames.dropLast } }
    match last_frame.frame_type with
    | .coroutineStart function => sequence_function vm1 function args true
    | .yield =>
      match last_frame.frame_return with
      | .upper returns => do
        let return_len := returns.to_constant.getD args.length
        let s := vm1.cur.stack.take last_frame.bottom
        let s := resizeList s (last_frame.bottom + return_len) .nil
        let s ← writeVals s last_frame.bottom (args.take return_len)
        let vm2 := { vm1 with cur := { vm1.cur with stack := s } }
        -- Stack size is already correct for variable returns, but if we are
        -- returning a constant number, we need to restore the previous stack
        -- top.
        if returns.is_variable then
          some (vm2, .threadSeq none (some (vm2.cur.frames.length - 1)))
        else do
          let upper ← vm2.cur.frames.getLast?
          let vm3 := { vm2 with cur := { vm2.cur with
            stack := resizeList vm2.cur.stack upper.top .nil } }
          some (vm3, .threadSeq none (some (vm3.cur.frames.length - 1)))
      | .callBoundary => some (vm1, .seqOk args)
    | _ => some (vm1, .seqErr (.thread .badResume))

/-- Continuation helper: read a register, panic when out of bounds. -/
def withSf (vm : VM) (base i : Nat) (k : Value → ExecResult) : ExecResult :=
  match sfGet vm base i with
  | some v => k v
  | none => .panicked

/-- Continuation helper: `get_table(v)?` — a non-table raises the
`TypeError`, keeping the state accumulated so far. -/
def withTable (vm : VM) (v : Value) (k : Nat → ExecResult) : ExecResult :=
  match get_table v with
  | .ok tid => k tid
  | .error e => .fail vm e

/-- Continuation helper: read `current_function.upvalues[i]` and the cell
behind it (`get_upvalue`), panicking on a bad index. -/
def withUpval (vm : VM) (base : Nat) (cf : Closure) (i : Nat)
    (k : Value → ExecResult) : ExecResult :=
  match cf.upvalues.get? i with
  | none => .panicked
  | some uvid =>
    match get_upvalue vm base uvid with
    | some v => k v
    | none => .panicked

/-- Table write followed by `.expect("could not set table value")`. -/
def tableSetPanic (vm : VM) (tid : Nat) (k v : Value) : ExecResult :=
  match vm.heap.tableSet tid k v with
  | .ok h => .inner { vm with heap := h }
  | .error _ => .panicked

/-- Constant-pool read converted to a value
(`proto.constants[i].to_value()`). -/
def constVal (cf : Closure) (i : Nat) : Option Value :=
  (cf.proto.constants.get? i).map (·.to_value)

/-- Continuation helper: constant-pool read, panic when out of bounds. -/
def withConst (cf : Closure) (i : Nat) (k : Value → ExecResult) : ExecResult :=
  match constVal cf i with
  | some v => k v
  | none => .panicked

/-- Shared body of the register/register arithmetic opcodes: apply the helper
and `.expect("could not apply binary operator")`. -/
def arith (vm : VM) (base dest : Nat) (l r : Value)
    (f : Value → Value → Option Value) : ExecResult :=
  match f l r with
  | some v => pOp (sfSet vm base dest v)
  | none => .panicked

/-- Modelled from the spec: `String::concat` — defined on all-string slices,
anything else makes the `unwrap` panic (number formatting is not
modelled). -/
def concatStrings : List Value → Option String
  | [] => some ""
  | .str s :: rest => (concatStrings rest).map (fun t => s ++ t)
  | _ => none

/-- The constant-count `VarArgs` loop: read vararg `i` (nil when past the
vararg region) and store it at `dest + i`, for `n` slots. -/
def varargsConst (s : List Value) (dest vstart vlen : Nat) :
    Nat → Nat → Option (List Value)
  | _, 0 => some s
  | i, n + 1 => do
    let v ← if i < vlen then s.get? (vstart + i) else some Value.nil
    let s' ← setIdx s (dest + i) v
    varargsConst s' dest vstart vlen (i + 1) n

/-- Sorted-map insertion for `open_upvalues` (the `BTreeEntry::Vacant`
insert). -/
def insertSorted (l : List (Nat × Nat)) (k v : Nat) : List (Nat × Nat) :=
  match l with
  | [] => [(k, v)]
  | (k', v') :: rest =>
    if k < k' then (k, v) :: (k', v') :: rest
    else (k', v') :: insertSorted rest k v

/-- Collect the up-value cells for a child closure (the descriptor loop of
`OpCode::Closure`): `Environment` panics, `ParentLocal` reuses or allocates
an open cell at `base + reg`, `Outer` copies from the current function. -/
def buildUpvals (vm : VM) (base : Nat) (cf : Closure) :
    List UpValueDescriptor → Option (VM × List Nat)
  | [] => some (vm, [])
  | d :: rest =>
    match d with
    | .environment => none
    | .parentLocal reg =>
      let ind := base + reg
      match vm.cur.open_upvalues.find? (fun p => p.1 == ind) with
      | some occupied => do
        let (vm', ids) ← buildUpvals vm base cf rest
        some (vm', occupied.2 :: ids)
      | none =>
        let uvid := vm.heap.uvcells.length
        let vm1 := { vm with
          heap := { vm.heap with
            uvcells := vm.heap.uvcells ++ [.openUv vm.selfId ind] }
          cur := { vm.cur with
            open_upvalues := insertSorted vm.cur.open_upvalues ind uvid } }
        do
          let (vm', ids) ← buildUpvals vm1 base cf rest
          some (vm', uvid :: ids)
    | .outer uvindex => do
      let uvid ← cf.upvalues.get? uvindex
      let (vm', ids) ← buildUpvals vm base cf rest
      some (vm', uvid :: ids)

/-- Translate the result of `call_function` at an opcode's call site:
`Unfinished` restarts the dispatch loop, anything else returns, errors
propagate with the mutated state. -/
def callSite (r : Option (VM × CallRes)) : ExecResult :=
  match r with
  | none => .panicked
  | some (vm', .ok .unfinished) => .start vm'
  | some (vm', .ok r) => .done vm' r
  | some (vm', .err e) => .fail vm' e

/-- Execute one opcode of `Thread::step_lua`'s dispatch `match`, given the
values the source caches at the top of the `'start` loop: the frame's
`bottom`, the register `base`, the frame's return contract, its
yieldability, and the current closure.  The top frame's `pc` has already
been incremented. -/
def exec_op (vm : VM) (stack_bottom stack_base : Nat)
    (frame_return : FrameReturn) (yieldable : Bool) (cf : Closure)
    (op : OpCode) : ExecResult :=
  match op with
  | .Move dest source =>
    withSf vm stack_base source fun v => pOp (sfSet vm stack_base dest v)
  | .LoadConstant dest constant =>
    withConst cf constant fun v => pOp (sfSet vm stack_base dest v)
  | .LoadBool dest value skip_next =>
    pOp (do
      let vm1 ← sfSet vm stack_base dest (.boolean value)
      if skip_next then bumpPc vm1 else some vm1)
  | .LoadNil dest count =>
    pOp (sfFill vm stack_base dest count)
  | .NewTable dest =>
    let tid := vm.heap.tables.length
    let vm1 := { vm with heap :=
      { vm.heap with tables := vm.heap.tables ++ [⟨[], none⟩] } }
    pOp (sfSet vm1 stack_base dest (.table tid))
  | .GetTableR dest table key =>
    withSf vm stack_base table fun tv => withTable vm tv fun tid =>
      withSf vm stack_base key fun kv =>
        pOp (sfSet vm stack_base dest (vm.heap.tableGet tid kv))
  | .GetTableC dest table key =>
    withSf vm stack_base table fun tv => withTable vm tv fun tid =>
      withConst cf key fun kv =>
        pOp (sfSet vm stack_base dest (vm.heap.tableGet tid kv))
  | .SetTableRR table key value =>
    withSf vm stack_base table fun tv => withTable vm tv fun tid =>
      withSf vm stack_base key fun kv => withSf vm stack_base value fun vv =>
        tableSetPanic vm tid kv vv
  | .SetTableRC table key value =>
    withSf vm stack_base table fun tv => withTable vm tv fun tid =>
      withSf vm stack_base key fun kv => withConst cf value fun vv =>
        tableSetPanic vm tid kv vv
  | .SetTableCR table key value =>
    withSf vm stack_base table fun tv => withTable vm tv fun tid =>
      withConst cf key fun kv => withSf vm stack_base value fun vv =>
        tableSetPanic vm tid kv vv
  | .SetTableCC table key value =>
    withSf vm stack_base table fun tv => withTable vm tv fun tid =>
      withConst cf key fun kv => withConst cf value fun vv =>
        tableSetPanic vm tid kv vv
  | .GetUpTableR dest table key =>
    withUpval vm stack_base cf table fun tv => withTable vm tv fun tid =>
      withSf vm stack_base key fun kv =>
        pOp (sfSet vm stack_base dest (vm.heap.tableGet tid kv))
  | .GetUpTableC dest table key =>
    withUpval vm stack_base cf table fun tv => withTable vm tv fun tid =>
      withConst cf key fun kv =>
        pOp (sfSet vm stack_base dest (vm.heap.tableGet tid kv))
  | .SetUpTableRR table key value =>
    withUpval vm stack_base cf table fun tv => withTable vm tv fun tid =>
      withSf vm stack_base key fun kv => withSf vm stack_base value fun vv =>
        tableSetPanic vm tid kv vv
  | .SetUpTableRC table key value =>
    withUpval vm stack_base cf table fun tv => withTable vm tv fun tid =>
      withSf vm stack_base key fun kv => withConst cf value fun vv =>
        tableSetPanic vm tid kv vv
  | .SetUpTableCR table key value =>
    withUpval vm stack_base cf table fun tv => withTable vm tv fun tid =>
      withConst cf key fun kv => withSf vm stack_base value fun vv =>
        tableSetPanic vm tid kv vv
  | .SetUpTableCC table key value =>
    withUpval vm stack_base cf table fun tv => withTable vm tv fun tid =>
      withConst cf key fun kv => withConst cf value fun vv =>
        tableSetPanic vm tid kv vv
  | .Call func args returns =>
    callSite (call_function vm (stack_base + func) args (.upper returns)
      yieldable)
  | .TailCall func args =>
    match close_upvalues vm stack_bottom with
    | none => .panicked
    | some vm1 =>
      let fi := stack_base + func
      match (match args.to_constant with
             | some c => some c
             | none =>
               if fi + 1 ≤ vm1.cur.stack.length
               then some (vm1.cur.stack.length - fi - 1) else none) with
      | none => .panicked
      | some arg_len =>
        match (do
          let fv ← vm1.cur.stack.get? fi
          let s1 ← setIdx vm1.cur.stack stack_bottom fv
          let s2 ← copyLoop s1 (stack_bottom + 1) (fi + 1) arg_len
          pure (s2.take (stack_bottom + 1 + arg_len))) with
        | none => .panicked
        | some s3 =>
          let vm2 := { vm1 with cur := { vm1.cur with
            stack := s3, frames := vm1.cur.frames.dropLast } }
          callSite (call_function vm2 stack_bottom args frame_return
            yieldable)
  | .Return start cnt =>
    match close_upvalues vm stack_bottom with
    | none => .panicked
    | some vm1 =>
      let vm2 := { vm1 with cur :=
        { vm1.cur with frames := vm1.cur.frames.dropLast } }
      let rstart := stack_base + start
      match (match cnt.to_constant with
             | some c => some c
             | none =>
               if rstart ≤ vm2.cur.stack.length
               then some (vm2.cur.stack.length - rstart) else none) with
      | none => .panicked
      | some count =>
        match frame_return with
        | .callBoundary =>
          if rstart + count ≤ vm2.cur.stack.length then
            let ret_vals := (vm2.cur.stack.drop rstart).take count
            match vm2.cur.frames.getLast? with
            | some f =>
              .done { vm2 with cur := { vm2.cur with
                  stack := resizeList vm2.cur.stack f.top .nil } }
                (.finished ret_vals)
            | none =>
              .done { vm2 with cur := { vm2.cur with stack := [] } }
                (.finished ret_vals)
          else .panicked
        | .upper returns =>
          let returning := returns.to_constant.getD count
          match (do
            let s1 ← copyLoop vm2.cur.stack stack_bottom rstart
              (min returning count)
            fillLoop s1 (stack_bottom + count) (returning - count) .nil) with
          | none => .panicked
          | some s2 =>
            -- Set the correct stack size for variable returns, otherwise
            -- restore the previous stack top.
            if returns.is_variable then
              .start { vm2 with cur := { vm2.cur with
                stack := s2.take (stack_bottom + returning) } }
            else
              match vm2.cur.frames.getLast? with
              | some f =>
                .start { vm2 with cur := { vm2.cur with
                  stack := resizeList s2 f.top .nil } }
              | none => .panicked
  | .VarArgs dest count =>
    let varargs_start := stack_bottom + 1
    match (if varargs_start ≤ stack_base
           then some (stack_base - varargs_start) else none) with
    | none => .panicked
    | some varargs_len =>
      let vdest := stack_base + dest
      match count.to_constant with
      | some c =>
        match varargsConst vm.cur.stack vdest varargs_start varargs_len
            0 c with
        | some s => .start { vm with cur := { vm.cur with stack := s } }
        | none => .panicked
      | none =>
        let s := resizeList vm.cur.stack (vdest + varargs_len) .nil
        match copyLoop s vdest varargs_start varargs_len with
        | some s' => .start { vm with cur := { vm.cur with stack := s' } }
        | none => .panicked
  | .Jump offset closeUp =>
    match getPc vm with
    | none => .panicked
    | some pc =>
      match add_offset pc offset with
      | none => .panicked
      | some pc' =>
        let vm1 := setPc vm pc'
        match closeUp with
        | some r =>
          -- `split_off(&(stack_base + r))` plus the closing loop is exactly
          -- `close_upvalues` at `stack_base + r` (self-owned slots read the
          -- same stack location through the frame slice).
          match close_upvalues vm1 (stack_base + r) with
          | some vm2 => .inner vm2
          | none => .panicked
        | none => .inner vm1
  | .Test value is_true =>
    withSf vm stack_base value fun v =>
      if v.to_bool == is_true then pOp (bumpPc vm) else .inner vm
  | .TestSet dest value is_true =>
    withSf vm stack_base value fun v =>
      if v.to_bool == is_true then pOp (bumpPc vm)
      else pOp (sfSet vm stack_base dest v)
  | .Closure proto dest =>
    match cf.proto.prototypes.get? proto with
    | none => .panicked
    | some p =>
      match buildUpvals vm stack_base cf p.upvalues with
      | none => .panicked
      | some (vm1, upvals) =>
        let cid := vm1.heap.nextCid
        let vm2 := { vm1 with heap := { vm1.heap with nextCid := cid + 1 } }
        pOp (sfSet vm2 stack_base dest
          (.function (.closure (.mk cid p upvals))))
  | .NumericForPrep fbase jump =>
    withSf vm stack_base fbase fun v0 =>
      withSf vm stack_base (fbase + 2) fun v2 =>
        match v0.subtract v2 with
        | none => .panicked
        | some v =>
          pOp (do
            let vm1 ← sfSet vm stack_base fbase v
            let pc ← getPc vm1
            let pc' ← add_offset pc jump
            some (setPc vm1 pc'))
  | .NumericForLoop fbase jump =>
    withSf vm stack_base fbase fun v0 =>
      withSf vm stack_base (fbase + 2) fun v2 =>
        match v0.add v2 with
        | none => .panicked
        | some nv =>
          match sfSet vm stack_base fbase nv with
          | none => .panicked
          | some vm1 =>
            withSf vm1 stack_base (fbase + 2) fun step =>
              match step.less_than (.integer 0) with
              | none => .panicked
              | some stepNeg =>
                withSf vm1 stack_base fbase fun counter =>
                  withSf vm1 stack_base (fbase + 1) fun limit =>
                    match (if stepNeg then counter.less_than limit
                           else limit.less_than counter) with
                    | none => .panicked
                    | some past_end =>
                      if !past_end then
                        pOp (do
                          let pc ← getPc vm1
                          let pc' ← add_offset pc jump
                          let vm2 := setPc vm1 pc'
                          sfSet vm2 stack_base (fbase + 3) counter)
                      else .inner vm1
  | .GenericForCall fbase var_count =>
    let gbase := stack_base + fbase
    let s := resizeList vm.cur.stack (gbase + 6) .nil
    match copyLoop s (gbase + 3) gbase 3 with
    | none => .panicked
    | some s' =>
      let vm1 := { vm with cur := { vm.cur with stack := s' } }
      callSite (call_function vm1 (gbase + 3) (.const 2)
        (.upper (.const var_count)) yieldable)
  | .GenericForLoop fbase jump =>
    withSf vm stack_base (fbase + 1) fun v =>
      if v.to_bool then
        pOp (do
          let vm1 ← sfSet vm stack_base fbase v
          let pc ← getPc vm1
          let pc' ← add_offset pc jump
          some (setPc vm1 pc'))
      else .inner vm
  | .SelfR sbase table key =>
    withSf vm stack_base table fun tv =>
      withConst cf key fun kv =>
        match sfSet vm stack_base (sbase + 1) tv with
        | none => .panicked
        | some vm1 =>
          match get_table tv with
          | .error e => .fail vm1 e
          | .ok tid =>
            pOp (sfSet vm1 stack_base sbase (vm1.heap.tableGet tid kv))
  | .SelfC sbase table key =>
    withSf vm stack_base table fun tv =>
      withConst cf key fun kv =>
        match sfSet vm stack_base (sbase + 1) tv with
        | none => .panicked
        | some vm1 =>
          match get_table tv with
          | .error e => .fail vm1 e
          | .ok tid =>
            pOp (sfSet vm1 stack_base sbase (vm1.heap.tableGet tid kv))
  | .Concat dest source count =>
    if stack_base + source + count ≤ vm.cur.stack.length then
      let vals := ((vm.cur.stack.drop (stack_base + source)).take count)
      match concatStrings vals with
      | some s => pOp (sfSet vm stack_base dest (.str s))
      | none => .panicked
    else .panicked
  | .GetUpValue source dest =>
    withUpval vm stack_base cf source fun v =>
      pOp (sfSet vm stack_base dest v)
  | .SetUpValue source dest =>
    withSf vm stack_base source fun val =>
      match cf.upvalues.get? dest with
      | none => .panicked
      | some uvid =>
        match vm.heap.uvcells.get? uvid with
        | none => .panicked
        | some (.openUv t ind) =>
          if t = vm.selfId then
            -- write through `upper_stack`: the index must lie below `base`
            if ind < stack_base then
              pOp ((setIdx vm.cur.stack ind val).map
                (fun s => { vm with cur := { vm.cur with stack := s } }))
            else .panicked
          else pOp (setOtherStack vm t ind val)
        | some (.closedUv _) =>
          .inner (setUvCell vm uvid (.closedUv val))
  | .Length dest source =>
    withSf vm stack_base source fun v => withTable vm v fun tid =>
      pOp (sfSet vm stack_base dest (.integer (vm.heap.tableLength tid)))
  | .EqRR skip_if left right =>
    withSf vm stack_base left fun lv => withSf vm stack_base right fun rv =>
      if (lv.veq rv) == skip_if then pOp (bumpPc vm) else .inner vm
  | .EqRC skip_if left right =>
    withSf vm stack_base left fun lv => withConst cf right fun rv =>
      if (lv.veq rv) == skip_if then pOp (bumpPc vm) else .inner vm
  | .EqCR skip_if left right =>
    withConst cf left fun lv => withSf vm stack_base right fun rv =>
      if (lv.veq rv) == skip_if then pOp (bumpPc vm) else .inner vm
  | .EqCC skip_if left right =>
    match cf.proto.constants.get? left, cf.proto.constants.get? right with
    | some lc, some rc =>
      if (lc.ceq rc) == skip_if then pOp (bumpPc vm) else .inner vm
    | _, _ => .panicked
  | .Not dest source =>
    withSf vm stack_base source fun v =>
      pOp (sfSet vm stack_base dest v.not_)
  | .AddRR dest left right =>
    withSf vm stack_base left fun lv => withSf vm stack_base right fun rv =>
      arith vm stack_base dest lv rv Value.add
  | .AddRC dest left right =>
    withSf vm stack_base left fun lv => withConst cf right fun rv =>
      arith vm stack_base dest lv rv Value.add
  | .AddCR dest left right =>
    withConst cf left fun lv => withSf vm stack_base right fun rv =>
      arith vm stack_base dest lv rv Value.add
  | .AddCC dest left right =>
    withConst cf left fun lv => withConst cf right fun rv =>
      arith vm stack_base dest lv rv Value.add
  | .SubRR dest left right =>
    withSf vm stack_base left fun lv => withSf vm stack_base right fun rv =>
      arith vm stack_base dest lv rv Value.subtract
  | .SubRC dest left right =>
    withSf vm stack_base left fun lv => withConst cf right fun rv =>
      arith vm stack_base dest lv rv Value.subtract
  | .SubCR dest left right =>
    withConst cf left fun lv => withSf vm stack_base right fun rv =>
      arith vm stack_base dest lv rv Value.subtract
  | .SubCC dest left right =>
    withConst cf left fun lv => withConst cf right fun rv =>
      arith vm stack_base dest lv rv Value.subtract
  | .MulRR dest left right =>
    withSf vm stack_base left fun lv => withSf vm stack_base right fun rv =>
      arith vm stack_base dest lv rv Value.multiply
  | .MulRC dest left right =>
    withSf vm stack_base left fun lv => withConst cf right fun rv =>
      arith vm stack_base dest lv rv Value.multiply
  | .MulCR dest left right =>
    withConst cf left fun lv => withSf vm stack_base right fun rv =>
      arith vm stack_base dest lv rv Value.multiply
  | .MulCC dest left right =>
    withConst cf left fun lv => withConst cf right fun rv =>
      arith vm stack_base dest lv rv Value.multiply

/-- Result of a `step_lua` invocation, instrumented with two ghost counters:
`executed` counts every executed opcode, `counted` counts the opcodes that
reached the instruction-quota check (the `continue 'start` opcodes — `Call`,
`TailCall`, `Return` to an upper frame, `VarArgs`, `GenericForCall` — bypass
it). -/
inductive LuaRes where
  | done (vm : VM) (r : ThreadResult) (executed counted : Nat)
  | fail (vm : VM) (e : LuaError)
  | panicked
  | fuelOut

/-- The instruction quota constant (`THREAD_GRANULARITY`). -/
def THREAD_GRANULARITY : Nat := 64

/-- The fused `'start`/instruction loop of `Thread::step_lua`.  The source
caches the frame fields at each `'start` entry; since no quota-checked opcode
changes any cached field other than `pc` (which the source also accesses
through the frame), re-reading them per opcode is equivalent.  `fuel` bounds
the recursion (the Rust loop can genuinely diverge, e.g. on a tail-call
loop); `instructions` is the remaining quota. -/
def lua_go (fuel : Nat) (vm : VM) (instructions executed counted : Nat) :
    LuaRes :=
  match fuel with
  | 0 => .fuelOut
  | fuel + 1 =>
    match vm.cur.frames.getLast? with
    | none => .panicked
    | some current_frame =>
      match current_frame.frame_type with
      | .lua stack_base pc =>
        -- `split_at_mut(stack_base)` panics when the base exceeds the stack
        if stack_base ≤ vm.cur.stack.length then
          match vm.cur.stack.get? current_frame.bottom with
          | none => .panicked
          | some fv =>
            match get_closure fv with
            | none => .panicked
            | some cf =>
              match cf.proto.opcodes.get? pc with
              | none => .panicked
              | some op =>
                let vm1 := setPc vm (pc + 1)
                match exec_op vm1 current_frame.bottom stack_base
                    current_frame.frame_return current_frame.yieldable cf
                    op with
                | .start vm' => lua_go fuel vm' instructions (executed + 1)
                    counted
                | .done vm' r => .done vm' r (executed + 1) counted
                | .fail vm' e => .fail vm' e
                | .panicked => .panicked
                | .inner vm' =>
                  if instructions == 0 then
                    .done vm' .unfinished (executed + 1) (counted + 1)
                  else
                    lua_go fuel vm' (instructions - 1) (executed + 1)
                      (counted + 1)
        else .panicked
      | _ => .panicked

/-- One interpretation slice (`Thread::step_lua`): run the dispatch loop with
the full instruction quota. -/
def step_lua (fuel : Nat) (vm : VM) : LuaRes :=
  lua_go fuel vm THREAD_GRANULARITY 0 0

/-! ## Async-sequence adapter (`async_callback.rs`)

The slice of the adapter relevant to error delivery after a `Pending`
suspension.  `AsyncSequence::poll_fut` stores its `error : Option<Error>`
argument into the `Shared` record visible to the suspended routine;
`Sequence::poll` passes `None` and `Sequence::error` passes `Some(error)`.
A routine suspended inside `SequenceState::pending()` resumes by running the
code after `wait_once().await`, which is exactly
`assert!(shared.error.is_none(), "SequencePoll::Pending cannot be followed by
an error")`. -/

/-- The fields of `Shared` the pending-resumption path reads. -/
structure SeqShared where
  error : Option LuaError

/-- Outcome of resuming the suspended routine one step: it continues
normally, or the adapter's assertion fires (a Rust panic). -/
inductive AdapterStep where
  | resumed
  | panicked
deriving DecidableEq, Repr

/-- Resumption of a routine suspended at `SequenceState::pending()`: the
post-`wait_once` assertion that no error was delivered. -/
def pending_resume (shared : SeqShared) : AdapterStep :=
  if shared.error.isNone then .resumed else .panicked

/-- `AsyncSequence::poll` on a sequence suspended at `pending()`: `poll_fut`
is entered with `error = None` (`self.poll_fut(ctx, exec, stack, None)`). -/
def asyncPollPending : AdapterStep :=
  pending_resume ⟨none⟩

/-- `AsyncSequence::error` on a sequence suspended at `pending()`: `poll_fut`
is entered with `error = Some(e)`
(`self.poll_fut(ctx, exec, stack, Some(error))`). -/
def asyncErrorPending (e : LuaError) : AdapterStep :=
  pending_resume ⟨some e⟩

/-! ## Observers and concrete states used by the theorems -/

/-- Frame-stack length visible in an `ExecResult` (`d` is returned for a
panic, where the Rust process has no post-state). -/
def ExecResult.framesAfter (d : Nat) : ExecResult → Nat
  | .inner vm => vm.cur.frames.length
  | .start vm => vm.cur.frames.length
  | .done vm _ => vm.cur.frames.length
  | .fail vm _ => vm.cur.frames.length
  | .panicked => d

/-- An up-value cell is in the `Closed` state. -/
def cellClosed (h : Heap) (uvid : Nat) : Prop :=
  ∃ v, h.uvcells.get? uvid = some (.closedUv v)

/-- Total table write (the success value of `Heap.tableSet` on a valid
key). -/
def Heap.tableSetD (h : Heap) (tid : Nat) (k v : Value) : Heap :=
  { h with
    tables := modifyAt h.tables tid
      (fun td => { td with entries := setEntry td.entries k v }) }

/-- Observer: did `new_index` succeed (return `Ok`)? -/
def newIndexOk : Except MetaOperatorError (Heap × Option MetaCall) → Bool
  | .ok _ => true
  | .error _ => false

/-- A one-opcode prototype that jumps to itself forever: the tight
infinite-loop byte-code of the instruction-quota scenario. -/
def loopProto : Prototype := .mk [] [.Jump (-1) none] [] [] 0 1

def loopClosure : Closure := .mk 0 loopProto []

/-- A thread running `loopProto` at a call boundary. -/
def loopVM : VM :=
  { selfId := 0
    cur :=
      { stack := [.function (.closure loopClosure), .nil]
        frames := [⟨0, 2, .lua 1 0, .callBoundary, false⟩]
        open_upvalues := [] }
    otherStacks := []
    heap := ⟨[], [], [], 1⟩ }

/-- Witness state for unwinding: a call-boundary callback frame, a Lua frame
above it, and one open up-value at stack index 1. -/
def c2VM : VM :=
  { selfId := 0
    cur :=
      { stack := [.integer 7, .integer 9]
        frames :=
          [⟨0, 1, .callback, .callBoundary, false⟩,
           ⟨1, 2, .lua 2 0, .upper .variable, false⟩]
        open_upvalues := [(1, 0)] }
    otherStacks := []
    heap := ⟨[], [], [.openUv 0 1], 0⟩ }

/-- Counterexample state for unwinding: a single call-boundary frame over a
non-empty stack. -/
def c2cexVM : VM :=
  { selfId := 0
    cur :=
      { stack := [.integer 1, .integer 2]
        frames := [⟨0, 2, .callback, .callBoundary, false⟩]
        open_upvalues := [] }
    otherStacks := []
    heap := ⟨[], [], [], 0⟩ }

/-- A prototype whose body is a self tail call: `TailCall R0, 0 args`. -/
def tcProto : Prototype := .mk [] [.TailCall 0 (.const 0)] [] [] 0 1

def tcClosure : Closure := .mk 0 tcProto []

/-- Witness state for the tail-call claim: a Lua frame about to tail call the
closure stored in its first register. -/
def tcVM : VM :=
  { selfId := 0
    cur :=
      { stack := [.function (.closure tcClosure), .function (.closure tcClosure)]
        frames := [⟨0, 2, .lua 1 1, .callBoundary, false⟩]
        open_upvalues := [] }
    otherStacks := []
    heap := ⟨[], [], [], 1⟩ }

def c4Proto : Prototype := .mk [] [.Return 0 (.const 1)] [] [] 0 2

def c4Closure : Closure := .mk 0 c4Proto []

def c4InnerClosure : Closure := .mk 1 c4Proto []

/-- Witness state for the `Return`-to-upper claim: an inner Lua frame with
`frame_return = Upper(const 1)` above a call-boundary frame. -/
def c4VM : VM :=
  { selfId := 0
    cur :=
      { stack :=
          [.function (.closure c4Closure), .integer 10, .integer 11,
           .function (.closure c4InnerClosure), .integer 20, .integer 21]
        frames :=
          [⟨0, 5, .lua 1 0, .callBoundary, false⟩,
           ⟨3, 6, .lua 4 1, .upper (.const 1), false⟩]
        open_upvalues := [] }
    otherStacks := []
    heap := ⟨[], [], [], 2⟩ }

/-- The state produced by executing the witness `Return`: the inner frame is
popped, the returned value `20` lands at the frame's bottom (slot 3), and the
stack is resized to the caller's recorded top `5`. -/
def c4resVM : VM :=
  { selfId := 0
    cur :=
      { stack :=
          [.function (.closure c4Closure), .integer 10, .integer 11,
           .integer 20, .integer 20]
        frames := [⟨0, 5, .lua 1 0, .callBoundary, false⟩]
        open_upvalues := [] }
    otherStacks := []
    heap := ⟨[], [], [], 2⟩ }

/-- Witness state for resuming a yield at a call boundary. -/
def c10VM : VM :=
  { selfId := 0
    cur :=
      { stack := [.integer 3]
        frames := [⟨0, 0, .yield, .callBoundary, true⟩]
        open_upvalues := [] }
    otherStacks := []
    heap := ⟨[], [], [], 0⟩ }

/-- Counterexample heap for binary metamethod resolution: table 0 has
metatable 1, whose `__add` entry is the integer 5 (a non-callable
metamethod). -/
def c6Heap : Heap :=
  ⟨[⟨[], some 1⟩, ⟨[(.str "__add", .integer 5)], none⟩], [], [], 0⟩

/-- Witness heap for binary metamethod resolution: table 0 has metatable 2
whose `__add` entry is a host callback; table 1 has no metatable. -/
def c6wHeap : Heap :=
  ⟨[⟨[], some 2⟩, ⟨[], none⟩,
    ⟨[(.str "__add", .function (.callback (.host 7)))], none⟩], [], [], 0⟩

/-- Counterexample heap for `new_index`: table 0 has metatable 1, whose
`__newindex` entry is the integer 5 (a non-callable metamethod). -/
def c7Heap : Heap :=
  ⟨[⟨[], some 1⟩, ⟨[(.str "__newindex", .integer 5)], none⟩], [], [], 0⟩

/-- Witness heap for `new_index`: table 0 has metatable 1, whose `__newindex`
entry is table 2. -/
def c7wHeap : Heap :=
  ⟨[⟨[], some 1⟩, ⟨[(.str "__newindex", .table 2)], none⟩, ⟨[], none⟩],
   [], [], 0⟩

/-- Witness heap for `index`: table 0 has metatable 1, whose `__index` entry
is table 2. -/
def c8wHeap : Heap :=
  ⟨[⟨[], some 1⟩, ⟨[(.str "__index", .table 2)], none⟩, ⟨[], none⟩],
   [], [], 0⟩

/-- The state `unwind` produces from `c2VM`: both frames popped, the open
up-value at index 1 closed over the value `9`, stack untouched. -/
def c2resVM : VM :=
  { selfId := 0
    cur :=
      { stack := [.integer 7, .integer 9]
        frames := []
        open_upvalues := [] }
    otherStacks := []
    heap := ⟨[], [], [.closedUv (.integer 9)], 0⟩ }

/-! # Theorems -/

theorem setIdx_some {α : Type} {l : List α} {i : Nat} {v : α} {l' : List α}
    (h : setIdx l i v = some l') : l' = l.set i v ∧ i < l.length := by
  unfold setIdx at h
  split at h
  · cases h
    exact ⟨rfl, by assumption⟩
  · cases h

theorem modifyAt_get?_ne {α : Type} (l : List α) (i j : Nat) (f : α → α)
    (h : i ≠ j) : (modifyAt l i f).get? j = l.get? j := by
  unfold modifyAt
  split
  · exact List.get?_set_ne _ _ h
  · rfl

theorem modifyAt_get?_self {α : Type} {l : List α} {i : Nat} {a : α}
    (f : α → α) (h : l.get? i = some a) :
    (modifyAt l i f).get? i = some (f a) := by
  unfold modifyAt
  rw [h]
  exact List.get?_set_eq_of_lt _ (List.get?_eq_some.mp h).1

theorem copyLoop_spec :
    ∀ (n : Nat) (s : List Value) (dst src : Nat) (s' : List Value),
      dst ≤ src → copyLoop s dst src n = some s' →
      s'.length = s.length ∧
      ∀ j, s'.get? j =
        if dst ≤ j ∧ j < dst + n then s.get? (src + (j - dst))
        else s.get? j := by
  intro n
  induction n with
  | zero =>
    intro s dst src s' _ h
    cases h
    refine ⟨rfl, fun j => ?_⟩
    rw [if_neg (by omega)]
  | succ n ih =>
    intro s dst src s' hds h
    unfold copyLoop at h
    cases hv : s.get? src with
    | none => rw [hv] at h; simp at h
    | some v =>
      rw [hv] at h
      simp only [Option.bind_eq_bind, Option.some_bind] at h
      cases hs1 : setIdx s dst v with
      | none => rw [hs1] at h; simp at h
      | some s1 =>
        rw [hs1] at h
        simp only [Option.some_bind] at h
        obtain ⟨hseq, hlt⟩ := setIdx_some hs1
        subst hseq
        obtain ⟨hlen, hget⟩ := ih (s.set dst v) (dst + 1) (src + 1) s'
          (by omega) h
        refine ⟨by rw [hlen, List.length_set], fun j => ?_⟩
        by_cases hj : dst ≤ j ∧ j < dst + (n + 1)
        · rw [if_pos hj]
          by_cases hjd : j = dst
          · subst hjd
            have hg := hget j
            rw [if_neg (by omega)] at hg
            rw [hg, List.get?_set_eq_of_lt v hlt]
            have harith : src + (j - j) = src := by omega
            rw [harith, hv]
          · have hg := hget j
            rw [if_pos ⟨by omega, by omega⟩] at hg
            have harith : src + 1 + (j - (dst + 1)) = src + (j - dst) := by
              omega
            rw [harith] at hg
            rw [hg, List.get?_set_ne v s (by omega)]
        · rw [if_neg hj]
          have hg := hget j
          rw [if_neg (by omega)] at hg
          rw [hg, List.get?_set_ne v s (by omega)]

theorem fillLoop_spec :
    ∀ (n : Nat) (s : List Value) (dst : Nat) (v : Value) (s' : List Value),
      fillLoop s dst n v = some s' →
      s'.length = s.length ∧
      ∀ j, s'.get? j =
        if dst ≤ j ∧ j < dst + n then some v else s.get? j := by
  intro n
  induction n with
  | zero =>
    intro s dst v s' h
    cases h
    refine ⟨rfl, fun j => ?_⟩
    rw [if_neg (by omega)]
  | succ n ih =>
    intro s dst v s' h
    unfold fillLoop at h
    cases hs1 : setIdx s dst v with
    | none => rw [hs1] at h; simp at h
    | some s1 =>
      rw [hs1] at h
      simp only [Option.bind_eq_bind, Option.some_bind] at h
      obtain ⟨hseq, hlt⟩ := setIdx_some hs1
      subst hseq
      obtain ⟨hlen, hget⟩ := ih (s.set dst v) (dst + 1) v s' h
      refine ⟨by rw [hlen, List.length_set], fun j => ?_⟩
      by_cases hj : dst ≤ j ∧ j < dst + (n + 1)
      · rw [if_pos hj]
        by_cases hjd : j = dst
        · subst hjd
          have hg := hget j
          rw [if_neg (by omega)] at hg
          rw [hg, List.get?_set_eq_of_lt v hlt]
        · have hg := hget j
          rw [if_pos ⟨by omega, by omega⟩] at hg
          exact hg
      · rw [if_neg hj]
        have hg := hget j
        rw [if_neg (by omega)] at hg
        rw [hg, List.get?_set_ne v s (by omega)]

theorem closeCells_frame :
    ∀ (l : List (Nat × Nat)) (vm vm' : VM), closeCells vm l = some vm' →
      vm'.cur = vm.cur ∧ vm'.selfId = vm.selfId ∧
      vm'.otherStacks = vm.otherStacks := by
  intro l
  induction l with
  | nil =>
    intro vm vm' h
    cases h
    exact ⟨rfl, rfl, rfl⟩
  | cons p rest ih =>
    intro vm vm' h
    obtain ⟨k, uvid⟩ := p
    unfold closeCells at h
    cases hc : vm.heap.uvcells.get? uvid with
    | none => rw [hc] at h; simp at h
    | some cell =>
      rw [hc] at h
      simp only [Option.bind_eq_bind, Option.some_bind] at h
      cases cell with
      | closedUv v => exact ih vm vm' h
      | openUv t ind =>
        dsimp only at h
        by_cases ht : t = vm.selfId
        · rw [if_pos ht] at h
          cases hv : vm.cur.stack.get? ind with
          | none => rw [hv] at h; simp at h
          | some v =>
            rw [hv] at h
            simp only [Option.some_bind] at h
            exact ih (setUvCell vm uvid (.closedUv v)) vm' h
        · rw [if_neg ht] at h
          cases ho : lookupOther vm t with
          | none => rw [ho] at h; simp at h
          | some s =>
            rw [ho] at h
            simp only [Option.some_bind] at h
            cases hv : s.get? ind with
            | none => rw [hv] at h; simp at h
            | some v =>
              rw [hv] at h
              simp only [Option.some_bind] at h
              exact ih (setUvCell vm uvid (.closedUv v)) vm' h

theorem closeCells_mono :
    ∀ (l : List (Nat × Nat)) (vm vm' : VM) (i : Nat),
      closeCells vm l = some vm' → cellClosed vm.heap i →
      cellClosed vm'.heap i := by
  intro l
  induction l with
  | nil =>
    intro vm vm' i h hcl
    cases h
    exact hcl
  | cons p rest ih =>
    intro vm vm' i h hcl
    obtain ⟨k, uvid⟩ := p
    unfold closeCells at h
    cases hc : vm.heap.uvcells.get? uvid with
    | none => rw [hc] at h; simp at h
    | some cell =>
      rw [hc] at h
      simp only [Option.bind_eq_bind, Option.some_bind] at h
      cases cell with
      | closedUv v => exact ih vm vm' i h hcl
      | openUv t ind =>
        dsimp only at h
        have hstep : ∀ (v : Value),
            cellClosed (setUvCell vm uvid (.closedUv v)).heap i := by
          intro v
          by_cases hi : i = uvid
          · subst hi
            exact ⟨v, modifyAt_get?_self _ hc⟩
          · obtain ⟨w, hw⟩ := hcl
            exact ⟨w, by
              show (modifyAt vm.heap.uvcells uvid _).get? i = _
              rw [modifyAt_get?_ne _ _ _ _ (fun hh => hi hh.symm), hw]⟩
        by_cases ht : t = vm.selfId
        · rw [if_pos ht] at h
          cases hv : vm.cur.stack.get? ind with
          | none => rw [hv] at h; simp at h
          | some v =>
            rw [hv] at h
            simp only [Option.some_bind] at h
            exact ih _ vm' i h (hstep v)
        · rw [if_neg ht] at h
          cases ho : lookupOther vm t with
          | none => rw [ho] at h; simp at h
          | some s =>
            rw [ho] at h
            simp only [Option.some_bind] at h
            cases hv : s.get? ind with
            | none => rw [hv] at h; simp at h
            | some v =>
              rw [hv] at h
              simp only [Option.some_bind] at h
              exact ih _ vm' i h (hstep v)

theorem closeCells_closed :
    ∀ (l : List (Nat × Nat)) (vm vm' : VM), closeCells vm l = some vm' →
      ∀ p ∈ l, cellClosed vm'.heap p.2 := by
  intro l
  induction l with
  | nil =>
    intro vm vm' _ p hp
    cases hp
  | cons q rest ih =>
    intro vm vm' h p hp
    obtain ⟨k, uvid⟩ := q
    unfold closeCells at h
    cases hc : vm.heap.uvcells.get? uvid with
    | none => rw [hc] at h; simp at h
    | some cell =>
      rw [hc] at h
      simp only [Option.bind_eq_bind, Option.some_bind] at h
      rcases List.mem_cons.mp hp with hph | hpt
      · subst hph
        cases cell with
        | closedUv v =>
          exact closeCells_mono rest vm vm' uvid h ⟨v, hc⟩
        | openUv t ind =>
          dsimp only at h
          have hclstep : ∀ (v : Value),
              cellClosed (setUvCell vm uvid (.closedUv v)).heap uvid :=
            fun v => ⟨v, modifyAt_get?_self _ hc⟩
          by_cases ht : t = vm.selfId
          · rw [if_pos ht] at h
            cases hv : vm.cur.stack.get? ind with
            | none => rw [hv] at h; simp at h
            | some v =>
              rw [hv] at h
              simp only [Option.some_bind] at h
              exact closeCells_mono rest _ vm' uvid h (hclstep v)
          · rw [if_neg ht] at h
            cases ho : lookupOther vm t with
            | none => rw [ho] at h; simp at h
            | some s =>
              rw [ho] at h
              simp only [Option.some_bind] at h
              cases hv : s.get? ind with
              | none => rw [hv] at h; simp at h
              | some v =>
                rw [hv] at h
                simp only [Option.some_bind] at h
                exact closeCells_mono rest _ vm' uvid h (hclstep v)
      · cases cell with
        | closedUv v => exact ih vm vm' h p hpt
        | openUv t ind =>
          dsimp only at h
          by_cases ht : t = vm.selfId
          · rw [if_pos ht] at h
            cases hv : vm.cur.stack.get? ind with
            | none => rw [hv] at h; simp at h
            | some v =>
              rw [hv] at h
              simp only [Option.some_bind] at h
              exact ih _ vm' h p hpt
          · rw [if_neg ht] at h
            cases ho : lookupOther vm t with
            | none => rw [ho] at h; simp at h
            | some s =>
              rw [ho] at h
              simp only [Option.some_bind] at h
              cases hv : s.get? ind with
              | none => rw [hv] at h; simp at h
              | some v =>
                rw [hv] at h
                simp only [Option.some_bind] at h
                exact ih _ vm' h p hpt

/-- Everything `close_upvalues` guarantees: the thread's stack and frames are
untouched, the open-up-value map keeps exactly the entries below `bottom`,
`selfId` and the other threads' stacks are untouched, and every removed entry's
cell ends up `Closed`. -/
theorem close_upvalues_spec (vm : VM) (bottom : Nat) (vm' : VM)
    (h : close_upvalues vm bottom = some vm') :
    vm'.cur.stack = vm.cur.stack ∧
    vm'.cur.frames = vm.cur.frames ∧
    vm'.cur.open_upvalues =
      vm.cur.open_upvalues.filter (fun p => p.1 < bottom) ∧
    vm'.selfId = vm.selfId ∧ vm'.otherStacks = vm.otherStacks ∧
    ∀ p ∈ vm.cur.open_upvalues, bottom ≤ p.1 → cellClosed vm'.heap p.2 := by
  unfold close_upvalues at h
  rw [List.partition_eq_filter_filter] at h
  obtain ⟨hcur, hself, hother⟩ := closeCells_frame _ _ _ h
  refine ⟨by rw [hcur], by rw [hcur], by rw [hcur], hself, hother, ?_⟩
  intro p hp hbp
  refine closeCells_closed _ _ _ h p ?_
  refine List.mem_filter.mpr ⟨hp, ?_⟩
  have hnb : ¬ p.1 < bottom := Nat.not_lt.mpr hbp
  simp [hnb]

theorem call_closure_frames (vm : VM) (fi : Nat) (a : VarCount)
    (fr : FrameReturn) (y : Bool) (vm' : VM)
    (h : call_closure vm fi a fr y = some vm') :
    vm'.cur.frames.length = vm.cur.frames.length + 1 := by
  unfold call_closure at h
  cases hv : vm.cur.stack.get? fi with
  | none => rw [hv] at h; simp at h
  | some fv =>
    rw [hv] at h
    simp only [Option.bind_eq_bind, Option.some_bind] at h
    cases hcl : get_closure fv with
    | none => rw [hcl] at h; simp at h
    | some closure =>
      rw [hcl] at h
      simp only [Option.some_bind] at h
      split at h
      · split at h
        · cases h
          simp
        · simp at h
      · cases h
        simp

theorem call_callback_frames (vm : VM) (fi : Nat) (a : VarCount)
    (fr : FrameReturn) (y : Bool) (vm' : VM) (p : PendingCallback)
    (h : call_callback vm fi a fr y = some (vm', p)) :
    vm'.cur.frames.length = vm.cur.frames.length + 1 := by
  unfold call_callback at h
  cases hv : vm.cur.stack.get? fi with
  | none => rw [hv] at h; simp at h
  | some fv =>
    rw [hv] at h
    simp only [Option.bind_eq_bind, Option.some_bind] at h
    split at h
    · split at h
      · cases h
        simp
      · simp at h
    · simp at h

theorem call_function_frames (vm : VM) (fi : Nat) (a : VarCount)
    (fr : FrameReturn) (y : Bool) (vm' : VM) (r : CallRes)
    (h : call_function vm fi a fr y = some (vm', r)) :
    vm'.cur.frames.length ≤ vm.cur.frames.length + 1 := by
  unfold call_function at h
  cases hv : vm.cur.stack.get? fi with
  | none => rw [hv] at h; simp at h
  | some fv =>
    rw [hv] at h
    simp only [Option.bind_eq_bind, Option.some_bind] at h
    match fv, h with
    | .function (.closure c), h =>
      dsimp only at h
      cases hcc : call_closure vm fi a fr y with
      | none => rw [hcc] at h; simp at h
      | some vm1 =>
        rw [hcc] at h
        simp only [Option.some_bind, Option.some.injEq, Prod.mk.injEq] at h
        obtain ⟨h1, _⟩ := h
        subst h1
        exact Nat.le_of_eq (call_closure_frames vm fi a fr y vm1 hcc)
    | .function (.callback cb), h =>
      dsimp only at h
      cases hcc : call_callback vm fi a fr y with
      | none => rw [hcc] at h; simp at h
      | some pr =>
        rw [hcc] at h
        simp only [Option.some_bind, Option.some.injEq, Prod.mk.injEq] at h
        obtain ⟨h1, _⟩ := h
        subst h1
        exact Nat.le_of_eq
          (call_callback_frames vm fi a fr y pr.1 pr.2
            (by rw [hcc]))
    | .nil, h | .boolean _, h | .integer _, h | .number _, h | .str _, h
    | .table _, h | .thread _, h | .userdata _, h =>
      dsimp only at h
      cases h
      exact Nat.le_succ _

/-- Ghost-counter invariant of the dispatch loop: every opcode that reaches
the quota check either returns `Unfinished` on the spot (when the remaining
quota is zero) or spends one unit of it, so a completed `lua_go` run has
performed at most `cnt + instructions + 1` checked opcodes. -/
theorem lua_go_counted :
    ∀ (fuel : Nat) (vm : VM) (instr ex cnt : Nat) (vm' : VM)
      (r : ThreadResult) (ex' cnt' : Nat),
      lua_go fuel vm instr ex cnt = .done vm' r ex' cnt' →
      cnt' ≤ cnt + instr + 1 := by
  intro fuel
  induction fuel with
  | zero =>
    intro vm instr ex cnt vm' r ex' cnt' h
    unfold lua_go at h
    simp at h
  | succ fuel ih =>
    intro vm instr ex cnt vm' r ex' cnt' h
    unfold lua_go at h
    split at h
    · simp at h
    · split at h
      · split at h
        · split at h
          · simp at h
          · split at h
            · simp at h
            · split at h
              · simp at h
              · split at h
                · -- quota exhausted: the checked opcode returns `Unfinished`
                  dsimp only at h
                  split at h
                  · exact ih _ _ _ _ _ _ _ _ h
                  · cases h
                    omega
                  · simp at h
                  · simp at h
                  · cases h
                    omega
                · -- quota remaining: a checked opcode consumes one unit
                  dsimp only at h
                  split at h
                  · exact ih _ _ _ _ _ _ _ _ h
                  · cases h
                    omega
                  · simp at h
                  · simp at h
                  · have hrec := ih _ _ _ _ _ _ _ _ h
                    rcases Nat.eq_zero_or_pos instr with hz | hp
                    · subst hz
                      simp_all
                    · omega
        · simp at h
      · simp at h

theorem call_function_res_ok (vm : VM) (fi : Nat) (fn : Function)
    (a : VarCount) (fr : FrameReturn) (y : Bool) (vm' : VM) (res : CallRes)
    (hget : vm.cur.stack.get? fi = some (.function fn))
    (h : call_function vm fi a fr y = some (vm', res)) :
    ∃ r, res = .ok r := by
  unfold call_function at h
  rw [hget] at h
  simp only [Option.bind_eq_bind, Option.some_bind] at h
  cases fn with
  | closure c =>
    dsimp only at h
    simp only [Option.bind_eq_some] at h
    obtain ⟨vm1, _, h2⟩ := h
    cases h2
    exact ⟨_, rfl⟩
  | callback cb =>
    dsimp only at h
    simp only [Option.bind_eq_some] at h
    obtain ⟨⟨vm1, p⟩, _, h2⟩ := h
    cases h2
    exact ⟨_, rfl⟩

theorem sequence_function_no_badresume (vm : VM) (fn : Function)
    (args : List Value) (y : Bool) (vmr : VM) :
    sequence_function vm fn args y ≠
      some (vmr, .seqErr (.thread .badResume)) := by
  intro h
  unfold sequence_function at h
  simp only [Option.bind_eq_bind, Option.bind_eq_some] at h
  obtain ⟨⟨vm2, res⟩, hcf, hm⟩ := h
  obtain ⟨r, hr⟩ := call_function_res_ok _ _ fn _ _ _ _ _ (by
    show (vm.cur.stack ++ [Value.function fn] ++ args).get?
      vm.cur.stack.length = some (Value.function fn)
    rw [List.get?_append (by simp)]
    exact List.get?_concat_length _ _) hcf
  subst hr
  cases r <;> simp at hm

/-- C5: `resume` yields the `BadResume` error exactly on threads that are not
suspended — i.e. exactly when the frame stack is empty or its top frame is
neither a `Yield` nor a `CoroutineStart` frame, which is exactly
`is_suspended = false`. -/
theorem thread_resume_badResume_iff (vm : VM) (args : List Value) :
    (∃ vmr, resume vm args = some (vmr, .seqErr (.thread .badResume))) ↔
      is_suspended vm = false := by
  cases hl : vm.cur.frames.getLast? with
  | none =>
    simp only [resume, is_suspended, hl]
    constructor
    · intro _
      trivial
    · intro _
      exact ⟨vm, rfl⟩
  | some f =>
    cases hft : f.frame_type with
    | lua base pc =>
      simp only [resume, is_suspended, hl, hft]
      constructor
      · intro _
        trivial
      · intro _
        exact ⟨_, rfl⟩
    | callback =>
      simp only [resume, is_suspended, hl, hft]
      constructor
      · intro _
        trivial
      · intro _
        exact ⟨_, rfl⟩
    | coroutineStart fn =>
      simp only [resume, is_suspended, hl, hft]
      constructor
      · rintro ⟨vmr, hr⟩
        exact absurd hr (sequence_function_no_badresume _ _ _ _ _)
      · intro hc
        simp at hc
    | yield =>
      cases hfr : f.frame_return with
      | callBoundary =>
        simp only [resume, is_suspended, hl, hft, hfr]
        constructor
        · rintro ⟨vmr, hr⟩
          simp at hr
        · intro hc
          simp at hc
      | upper returns =>
        simp only [resume, is_suspended, hl, hft, hfr]
        constructor
        · rintro ⟨vmr, hr⟩
          simp only [Option.bind_eq_bind, Option.bind_eq_some] at hr
          obtain ⟨s1, _, hr⟩ := hr
          split at hr
          · simp at hr
          · simp only [Option.bind_eq_bind, Option.bind_eq_some] at hr
            obtain ⟨u, _, hr⟩ := hr
            simp at hr
        · intro hc
          simp at hc

/-- C10: resuming a thread whose top frame is a `Yield` at a `CallBoundary`
pops that frame and immediately completes with exactly the resume arguments,
leaving the stack, the open up-values, and the heap untouched and executing
no opcodes. -/
theorem thread_resume_yield_boundary (vm : VM) (fs : List Frame) (f : Frame)
    (args : List Value)
    (hfr : vm.cur.frames = fs ++ [f])
    (hft : f.frame_type = .yield)
    (hret : f.frame_return = .callBoundary) :
    resume vm args =
      some ({ vm with cur := { vm.cur with frames := fs } }, .seqOk args) := by
  simp only [resume, hfr, List.getLast?_concat, hft, hret,
    List.dropLast_concat]

/-- C10 witness: a concrete yield-at-boundary thread resumed with one
argument. -/
theorem thread_resume_yield_boundary_witness :
    resume c10VM [.integer 8] =
      some ({ c10VM with cur := { c10VM.cur with frames := [] } },
        .seqOk [.integer 8]) :=
  thread_resume_yield_boundary c10VM [] ⟨0, 0, .yield, .callBoundary, true⟩
    [.integer 8] rfl rfl rfl

/-- C1 (corrected): per `step_lua` invocation, at most
`THREAD_GRANULARITY + 1 = 65` opcodes that reach the quota check execute
(frame-transfer opcodes bypass the check), and on the tight jump-loop
byte-code every invocation returns `Unfinished` after exactly 65 executed
opcodes, returning the thread to an identical state. -/
theorem step_lua_quota (fuel : Nat) (vm vm' : VM) (r : ThreadResult)
    (ex cnt : Nat) (h : step_lua fuel vm = .done vm' r ex cnt) :
    cnt ≤ THREAD_GRANULARITY + 1 ∧
    step_lua 100 loopVM = .done loopVM .unfinished 65 65 := by
  constructor
  · have hb := lua_go_counted fuel vm THREAD_GRANULARITY 0 0 vm' r ex cnt h
    simpa using hb
  · rfl

/-- C1 witness: the quota bound and the loop-program equation instantiated on
the tight jump loop itself. -/
theorem step_lua_quota_witness :
    (65 : Nat) ≤ THREAD_GRANULARITY + 1 ∧
    step_lua 100 loopVM = .done loopVM .unfinished 65 65 :=
  step_lua_quota 100 loopVM loopVM .unfinished 65 65 rfl

/-- C1 counterexample: on the tight infinite jump loop, `step_lua` returns
`Unfinished` after exactly 65 executed opcodes — not 64 as claimed. -/
theorem step_lua_quota_cex :
    step_lua 100 loopVM = .done loopVM .unfinished 65 65 ∧
    (65 : Nat) ≠ 64 :=
  ⟨rfl, by decide⟩

/-- C9: a normal `poll` resumption of a sequence suspended at
`SequenceState::pending()` delivers no error into the routine, and invoking
the sequence's `error` entry point instead trips the adapter's assertion
(`SequencePoll::Pending cannot be followed by an error`), i.e. panics rather
than being silently accepted. -/
theorem async_pending_no_error :
    asyncPollPending = .resumed ∧
    ∀ e : LuaError, asyncErrorPending e = .panicked :=
  ⟨rfl, fun _ => rfl⟩

/-- C2 (corrected): `unwind` pops frames down to and including the nearest
`CallBoundary` frame, closes every open up-value at or above that frame's
bottom, and resizes the stack to the new top frame's recorded `top` — but
when no frames remain it leaves the stack unchanged (it does not clear
it). -/
theorem thread_unwind_spec (vm vm' : VM) (restRev : List Frame) (bf : Frame)
    (hpop : popToBoundary vm.cur.frames.reverse = some (restRev, bf))
    (hrun : unwind vm = some vm') :
    vm'.cur.frames = restRev.reverse ∧
    vm'.cur.open_upvalues =
      vm.cur.open_upvalues.filter (fun p => p.1 < bf.bottom) ∧
    (∀ p ∈ vm.cur.open_upvalues, bf.bottom ≤ p.1 → cellClosed vm'.heap p.2) ∧
    (match restRev with
     | [] => vm'.cur.stack = vm.cur.stack
     | f :: _ => vm'.cur.stack = resizeList vm.cur.stack f.top .nil) := by
  unfold unwind at hrun
  rw [hpop] at hrun
  simp only [Option.bind_eq_bind, Option.some_bind, Option.bind_eq_some]
    at hrun
  obtain ⟨vmc, hcl, hrest⟩ := hrun
  obtain ⟨hstack, hframes, houv, _, _, hclosed⟩ :=
    close_upvalues_spec _ _ _ hcl
  have hstack2 : vmc.cur.stack = vm.cur.stack := hstack
  have hframes2 : vmc.cur.frames = restRev.reverse := hframes
  have houv2 : vmc.cur.open_upvalues =
      vm.cur.open_upvalues.filter (fun p => p.1 < bf.bottom) := houv
  have hclosed2 : ∀ p ∈ vm.cur.open_upvalues, bf.bottom ≤ p.1 →
      cellClosed vmc.heap p.2 := hclosed
  cases restRev with
  | nil =>
    rw [hframes2] at hrest
    simp only [List.reverse_nil, List.getLast?_nil] at hrest
    cases hrest
    exact ⟨by rw [hframes2], houv2, hclosed2, hstack2⟩
  | cons f rest =>
    rw [hframes2, List.reverse_cons, List.getLast?_concat] at hrest
    cases hrest
    refine ⟨?_, houv2, hclosed2, ?_⟩
    · dsimp only
      exact (List.reverse_cons f rest).symm
    · dsimp only
      rw [hstack2]

/-- C2 witness: unwinding a thread with a Lua frame above a call-boundary
callback frame and one open up-value at index 1. -/
theorem thread_unwind_spec_witness :
    c2resVM.cur.frames = ([] : List Frame).reverse ∧
    c2resVM.cur.open_upvalues =
      c2VM.cur.open_upvalues.filter (fun p => p.1 < 0) ∧
    (∀ p ∈ c2VM.cur.open_upvalues, 0 ≤ p.1 →
      cellClosed c2resVM.heap p.2) ∧
    c2resVM.cur.stack = c2VM.cur.stack :=
  thread_unwind_spec c2VM c2resVM []
    ⟨0, 1, .callback, .callBoundary, false⟩ rfl rfl

/-- C2 counterexample: unwinding a thread whose only frame is the call
boundary leaves the (non-empty) stack in place; the claim says the stack is
cleared when no frames remain. -/
theorem thread_unwind_cex :
    (unwind c2cexVM).map (fun v => (v.cur.frames.length, v.cur.stack)) =
      some (0, [.integer 1, .integer 2]) ∧
    [Value.integer 1, Value.integer 2] ≠ ([] : List Value) :=
  ⟨rfl, List.cons_ne_nil _ _⟩

theorem callSite_frames (o : Option (VM × CallRes)) (n : Nat)
    (h : ∀ vm' r, o = some (vm', r) → vm'.cur.frames.length ≤ n) :
    (callSite o).framesAfter 0 ≤ n := by
  cases o with
  | none => simp [callSite, ExecResult.framesAfter]
  | some pr =>
    obtain ⟨vm', res⟩ := pr
    have hb := h vm' res rfl
    cases res with
    | err e => simpa [callSite, ExecResult.framesAfter] using hb
    | ok r => cases r <;> simpa [callSite, ExecResult.framesAfter] using hb

/-- C3: executing a `TailCall` opcode never grows the frame stack — whether
the callee is a closure, a callback, or the call errors because the callee is
not a function, the frame count afterwards is at most the frame count
before. -/
theorem tailcall_no_frame_growth (vm : VM) (stack_bottom stack_base : Nat)
    (fr : FrameReturn) (y : Bool) (cf : Closure) (fn : Nat)
    (args : VarCount) (hne : vm.cur.frames ≠ []) :
    (exec_op vm stack_bottom stack_base fr y cf
      (.TailCall fn args)).framesAfter 0 ≤ vm.cur.frames.length := by
  have hpos : 0 < vm.cur.frames.length := List.length_pos.mpr hne
  simp only [exec_op]
  split
  · simp [ExecResult.framesAfter]
  · rename_i vm1 hcl
    have hfr1 : vm1.cur.frames = vm.cur.frames :=
      (close_upvalues_spec _ _ _ hcl).2.1
    split
    · simp [ExecResult.framesAfter]
    · split
      · simp [ExecResult.framesAfter]
      · refine callSite_frames _ _ ?_
        intro vm' r heq
        have hfl := call_function_frames _ _ _ _ _ _ _ heq
        dsimp only at hfl
        rw [List.length_dropLast, hfr1] at hfl
        omega

/-- C3 witness: a concrete self tail call (closure callee). -/
theorem tailcall_no_frame_growth_witness :
    tcVM.cur.frames ≠ [] ∧
    (exec_op tcVM 0 1 .callBoundary false tcClosure
      (.TailCall 0 (.const 0))).framesAfter 0 ≤ tcVM.cur.frames.length :=
  ⟨by simp [tcVM], tailcall_no_frame_growth tcVM 0 1 .callBoundary false
    tcClosure 0 (.const 0) (by simp [tcVM])⟩

/-- C4: executing `Return { start, count }` in a frame returning
`Upper(returns)` closes all open up-values at or above the frame's bottom,
pops the frame, writes exactly `min(returning, count)` returned values at the
frame's bottom (`returning = returns` if constant, else `count`), pads slots
`bottom+count … bottom+returning` with Nil, leaves every other slot
untouched, and then truncates the stack to `bottom + returning` for variable
`returns` or resizes it to the upper frame's recorded `top` for constant
`returns`. -/
theorem return_upper_spec (vm vm' : VM) (stack_bottom stack_base st : Nat)
    (rts cnt : VarCount) (y : Bool) (cf : Closure) (count returning : Nat)
    (hbs : stack_bottom ≤ stack_base + st)
    (hcount : count = cnt.to_constant.getD
      (vm.cur.stack.length - (stack_base + st)))
    (hret : returning = rts.to_constant.getD count)
    (hrun : exec_op vm stack_bottom stack_base (.upper rts) y cf
      (.Return st cnt) = .start vm') :
    vm'.cur.frames = vm.cur.frames.dropLast ∧
    vm'.cur.open_upvalues =
      vm.cur.open_upvalues.filter (fun p => p.1 < stack_bottom) ∧
    (∀ p ∈ vm.cur.open_upvalues, stack_bottom ≤ p.1 →
      cellClosed vm'.heap p.2) ∧
    ∃ written : List Value,
      written.length = vm.cur.stack.length ∧
      (∀ i, i < min returning count →
        written.get? (stack_bottom + i) =
          vm.cur.stack.get? (stack_base + st + i)) ∧
      (∀ i, count ≤ i → i < returning →
        written.get? (stack_bottom + i) = some .nil) ∧
      (∀ j, j < stack_bottom → written.get? j = vm.cur.stack.get? j) ∧
      (∀ j, stack_bottom + min returning count ≤ j →
        j < stack_bottom + count →
        written.get? j = vm.cur.stack.get? j) ∧
      (∀ j, stack_bottom + count ≤ j → stack_bottom + returning ≤ j →
        written.get? j = vm.cur.stack.get? j) ∧
      (if rts.is_variable then
        vm'.cur.stack = written.take (stack_bottom + returning)
       else ∃ uf, vm.cur.frames.dropLast.getLast? = some uf ∧
         vm'.cur.stack = resizeList written uf.top .nil) := by
  simp only [exec_op] at hrun
  split at hrun
  · simp at hrun
  · rename_i vm1 hcl
    obtain ⟨hstack, hframes, houv, _, _, hclosed⟩ :=
      close_upvalues_spec _ _ _ hcl
    split at hrun
    · simp at hrun
    · rename_i count' heqc
      have hcc : count' = count := by
        cases hc : cnt.to_constant with
        | some c =>
          rw [hc] at heqc
          cases heqc
          rw [hcount, hc]
          rfl
        | none =>
          rw [hc] at heqc
          dsimp only at heqc
          split at heqc
          · cases heqc
            rw [hcount, hc]
            show vm1.cur.stack.length - (stack_base + st) = _
            rw [hstack]
            rfl
          · cases heqc
      rw [hcc] at hrun
      rw [← hret] at hrun
      split at hrun
      · simp at hrun
      · rename_i s2 heqs
        simp only [Option.bind_eq_bind, Option.bind_eq_some] at heqs
        obtain ⟨s1, hcopy, hfill⟩ := heqs
        rw [hstack] at hcopy
        obtain ⟨hclen, hcget⟩ := copyLoop_spec _ _ _ _ _ hbs hcopy
        obtain ⟨hflen, hfget⟩ := fillLoop_spec _ _ _ _ _ hfill
        have hwrit :
            s2.length = vm.cur.stack.length ∧
            (∀ i, i < min returning count →
              s2.get? (stack_bottom + i) =
                vm.cur.stack.get? (stack_base + st + i)) ∧
            (∀ i, count ≤ i → i < returning →
              s2.get? (stack_bottom + i) = some .nil) ∧
            (∀ j, j < stack_bottom →
              s2.get? j = vm.cur.stack.get? j) ∧
            (∀ j, stack_bottom + min returning count ≤ j →
              j < stack_bottom + count →
              s2.get? j = vm.cur.stack.get? j) ∧
            (∀ j, stack_bottom + count ≤ j → stack_bottom + returning ≤ j →
              s2.get? j = vm.cur.stack.get? j) := by
          refine ⟨hflen.trans hclen, ?_, ?_, ?_, ?_, ?_⟩
          · intro i hi
            have hminc : i < count := lt_of_lt_of_le hi (Nat.min_le_right _ _)
            rw [hfget (stack_bottom + i), if_neg (by omega),
              hcget (stack_bottom + i), if_pos ⟨by omega, by omega⟩]
            congr 1
            omega
          · intro i hci hir
            rw [hfget (stack_bottom + i), if_pos ⟨by omega, by omega⟩]
          · intro j hj
            rw [hfget j, if_neg (by omega), hcget j, if_neg (by omega)]
          · intro j h1 h2
            rw [hfget j, if_neg (by omega), hcget j, if_neg ?_]
            have hmlc : min returning count ≤ count := Nat.min_le_right _ _
            omega
          · intro j h1 h2
            have hmlr : min returning count ≤ returning :=
              Nat.min_le_left _ _
            rw [hfget j, if_neg (by omega), hcget j, if_neg (by omega)]
        split at hrun
        · rename_i hvar
          cases hrun
          refine ⟨?_, houv, hclosed, s2, hwrit.1, hwrit.2.1,
            hwrit.2.2.1, hwrit.2.2.2.1, hwrit.2.2.2.2.1,
            hwrit.2.2.2.2.2, ?_⟩
          · show vm1.cur.frames.dropLast = vm.cur.frames.dropLast
            rw [hframes]
          · rw [if_pos hvar]
        · rename_i hvar
          split at hrun
          · rename_i uf huf
            cases hrun
            refine ⟨?_, houv, hclosed, s2, hwrit.1, hwrit.2.1,
              hwrit.2.2.1, hwrit.2.2.2.1, hwrit.2.2.2.2.1,
              hwrit.2.2.2.2.2, ?_⟩
            · show vm1.cur.frames.dropLast = vm.cur.frames.dropLast
              rw [hframes]
            · rw [if_neg hvar]
              refine ⟨uf, ?_, rfl⟩
              rw [← hframes]
              exact huf
          · simp at hrun

/-- C4 witness: a concrete `Return 0, const 1` from an inner frame with
`frame_return = Upper(const 1)`. -/
theorem return_upper_spec_witness :
    c4resVM.cur.frames = c4VM.cur.frames.dropLast ∧
    c4resVM.cur.open_upvalues =
      c4VM.cur.open_upvalues.filter (fun p => p.1 < 3) ∧
    (∀ p ∈ c4VM.cur.open_upvalues, 3 ≤ p.1 →
      cellClosed c4resVM.heap p.2) ∧
    ∃ written : List Value,
      written.length = c4VM.cur.stack.length ∧
      (∀ i, i < min 1 1 →
        written.get? (3 + i) = c4VM.cur.stack.get? (4 + 0 + i)) ∧
      (∀ i, 1 ≤ i → i < 1 → written.get? (3 + i) = some .nil) ∧
      (∀ j, j < 3 → written.get? j = c4VM.cur.stack.get? j) ∧
      (∀ j, 3 + min 1 1 ≤ j → j < 3 + 1 →
        written.get? j = c4VM.cur.stack.get? j) ∧
      (∀ j, 3 + 1 ≤ j → 3 + 1 ≤ j →
        written.get? j = c4VM.cur.stack.get? j) ∧
      (if (VarCount.const 1).is_variable then
        c4resVM.cur.stack = written.take (3 + 1)
       else ∃ uf, c4VM.cur.frames.dropLast.getLast? = some uf ∧
         c4resVM.cur.stack = resizeList written uf.top .nil) :=
  return_upper_spec c4VM c4resVM 3 4 0 (.const 1) (.const 1) false
    c4InnerClosure 1 1 (by decide) rfl rfl rfl

/-- C6 (corrected): binary metamethod resolution.  When both operands are
tables/user data, the left metatable is tried first, then the right, and a
`Binary` error is raised when neither has a non-nil entry; when exactly one
operand is a table/user datum only that side is consulted; when neither is,
the constant operation decides.  A found metamethod that resolves to a
callable is returned as a deferred call with args `[lhs, rhs]`; a found
non-callable metamethod — on whichever operand it was found (lhs; rhs with
both operands tables/user data and lhs lacking an entry; or rhs alone) —
raises `MetaOperatorError::Call` instead of being returned deferred. -/
theorem meta_metaop_spec (h : Heap) (lhs rhs : Value) (method : MetaMethod)
    (const_op : Value → Value → Option Value) :
    (∀ m f, meta_ops.isTU lhs = true → meta_ops.isTU rhs = true →
      meta_ops.get_metamethod h lhs method = some m →
      meta_ops.call h m = .ok f →
      meta_ops.meta_metaop h lhs rhs method const_op =
        .ok (.call ⟨f, [lhs, rhs]⟩)) ∧
    (∀ m f, meta_ops.isTU lhs = true → meta_ops.isTU rhs = true →
      meta_ops.get_metamethod h lhs method = none →
      meta_ops.get_metamethod h rhs method = some m →
      meta_ops.call h m = .ok f →
      meta_ops.meta_metaop h lhs rhs method const_op =
        .ok (.call ⟨f, [lhs, rhs]⟩)) ∧
    (meta_ops.isTU lhs = true → meta_ops.isTU rhs = true →
      meta_ops.get_metamethod h lhs method = none →
      meta_ops.get_metamethod h rhs method = none →
      meta_ops.meta_metaop h lhs rhs method const_op =
        .error (.binary method lhs.type_name rhs.type_name)) ∧
    (∀ m f, meta_ops.isTU lhs = true → meta_ops.isTU rhs = false →
      meta_ops.get_metamethod h lhs method = some m →
      meta_ops.call h m = .ok f →
      meta_ops.meta_metaop h lhs rhs method const_op =
        .ok (.call ⟨f, [lhs, rhs]⟩)) ∧
    (meta_ops.isTU lhs = true → meta_ops.isTU rhs = false →
      meta_ops.get_metamethod h lhs method = none →
      meta_ops.meta_metaop h lhs rhs method const_op =
        .error (.binary method lhs.type_name rhs.type_name)) ∧
    (∀ m f, meta_ops.isTU lhs = false → meta_ops.isTU rhs = true →
      meta_ops.get_metamethod h rhs method = some m →
      meta_ops.call h m = .ok f →
      meta_ops.meta_metaop h lhs rhs method const_op =
        .ok (.call ⟨f, [lhs, rhs]⟩)) ∧
    (meta_ops.isTU lhs = false → meta_ops.isTU rhs = true →
      meta_ops.get_metamethod h rhs method = none →
      meta_ops.meta_metaop h lhs rhs method const_op =
        .error (.binary method lhs.type_name rhs.type_name)) ∧
    (∀ v, meta_ops.isTU lhs = false → meta_ops.isTU rhs = false →
      const_op lhs rhs = some v →
      meta_ops.meta_metaop h lhs rhs method const_op = .ok (.value v)) ∧
    (meta_ops.isTU lhs = false → meta_ops.isTU rhs = false →
      const_op lhs rhs = none →
      meta_ops.meta_metaop h lhs rhs method const_op =
        .error (.binary method lhs.type_name rhs.type_name)) ∧
    (∀ m ce, meta_ops.isTU lhs = true →
      meta_ops.get_metamethod h lhs method = some m →
      meta_ops.call h m = .error ce →
      meta_ops.meta_metaop h lhs rhs method const_op =
        .error (.call method ce)) ∧
    (∀ m ce, meta_ops.isTU lhs = true → meta_ops.isTU rhs = true →
      meta_ops.get_metamethod h lhs method = none →
      meta_ops.get_metamethod h rhs method = some m →
      meta_ops.call h m = .error ce →
      meta_ops.meta_metaop h lhs rhs method const_op =
        .error (.call method ce)) ∧
    (∀ m ce, meta_ops.isTU lhs = false → meta_ops.isTU rhs = true →
      meta_ops.get_metamethod h rhs method = some m →
      meta_ops.call h m = .error ce →
      meta_ops.meta_metaop h lhs rhs method const_op =
        .error (.call method ce)) := by
  refine ⟨?_, ?_, ?_, ?_, ?_, ?_, ?_, ?_, ?_, ?_, ?_, ?_⟩
  · intro m f hl hr hm hc
    cases lhs <;> simp [meta_ops.isTU] at hl <;>
      cases rhs <;> simp [meta_ops.isTU] at hr <;>
        simp [meta_ops.meta_metaop, hm, hc, Except.mapError]
  · intro m f hl hr hm1 hm2 hc
    cases lhs <;> simp [meta_ops.isTU] at hl <;>
      cases rhs <;> simp [meta_ops.isTU] at hr <;>
        simp [meta_ops.meta_metaop, hm1, hm2, hc, Except.mapError]
  · intro hl hr hm1 hm2
    cases lhs <;> simp [meta_ops.isTU] at hl <;>
      cases rhs <;> simp [meta_ops.isTU] at hr <;>
        simp [meta_ops.meta_metaop, hm1, hm2, throw, throwThe, MonadExceptOf.throw]
  · intro m f hl hr hm hc
    cases lhs <;> simp [meta_ops.isTU] at hl <;>
      cases rhs <;> simp [meta_ops.isTU] at hr <;>
        simp [meta_ops.meta_metaop, hm, hc, Except.mapError]
  · intro hl hr hm
    cases lhs <;> simp [meta_ops.isTU] at hl <;>
      cases rhs <;> simp [meta_ops.isTU] at hr <;>
        simp [meta_ops.meta_metaop, hm, throw, throwThe, MonadExceptOf.throw]
  · intro m f hl hr hm hc
    cases lhs <;> simp [meta_ops.isTU] at hl <;>
      cases rhs <;> simp [meta_ops.isTU] at hr <;>
        simp [meta_ops.meta_metaop, hm, hc, Except.mapError]
  · intro hl hr hm
    cases lhs <;> simp [meta_ops.isTU] at hl <;>
      cases rhs <;> simp [meta_ops.isTU] at hr <;>
        simp [meta_ops.meta_metaop, hm, throw, throwThe, MonadExceptOf.throw]
  · intro v hl hr hco
    cases lhs <;> simp [meta_ops.isTU] at hl <;>
      cases rhs <;> simp [meta_ops.isTU] at hr <;>
        simp [meta_ops.meta_metaop, hco, throw, throwThe, MonadExceptOf.throw, pure, Except.pure]
  · intro hl hr hco
    cases lhs <;> simp [meta_ops.isTU] at hl <;>
      cases rhs <;> simp [meta_ops.isTU] at hr <;>
        simp [meta_ops.meta_metaop, hco, throw, throwThe, MonadExceptOf.throw, pure, Except.pure]
  · intro m ce hl hm hc
    cases lhs <;> simp [meta_ops.isTU] at hl <;>
      cases rhs <;>
        simp [meta_ops.meta_metaop, hm, hc, Except.mapError]
  · intro m ce hl hr hm1 hm2 hc
    cases lhs <;> simp [meta_ops.isTU] at hl <;>
      cases rhs <;> simp [meta_ops.isTU] at hr <;>
        simp [meta_ops.meta_metaop, hm1, hm2, hc, Except.mapError]
  · intro m ce hl hr hm hc
    cases lhs <;> simp [meta_ops.isTU] at hl <;>
      cases rhs <;> simp [meta_ops.isTU] at hr <;>
        simp [meta_ops.meta_metaop, hm, hc, Except.mapError]

/-- C6 witness: both operands are tables; the left metatable's `__add` entry
is a host callback, returned as a deferred call. -/
theorem meta_metaop_spec_witness :
    meta_ops.meta_metaop c6wHeap (.table 0) (.table 1) .Add
      (fun _ _ => none) =
      .ok (.call ⟨.callback (.host 7), [.table 0, .table 1]⟩) :=
  (meta_metaop_spec c6wHeap (.table 0) (.table 1) .Add (fun _ _ => none)).1
    (.function (.callback (.host 7))) (.callback (.host 7)) rfl rfl rfl rfl

/-- C6 counterexample: lhs's metatable has `__add = 5`; the found metamethod
is not callable, so `meta_metaop` raises `MetaOperatorError::Call` instead of
returning the deferred `MetaResult::Call` the claim promises. -/
theorem meta_metaop_cex :
    meta_ops.meta_metaop c6Heap (.table 0) (.integer 1) .Add
      (fun _ _ => none) = .error (.call .Add ⟨"number"⟩) ∧
    meta_ops.isDeferredCall
      (meta_ops.meta_metaop c6Heap (.table 0) (.integer 1) .Add
        (fun _ _ => none)) = false :=
  ⟨rfl, rfl⟩

theorem tableSet_valid (h : Heap) (tid : Nat) (k v : Value)
    (hk : validKey k = true) :
    h.tableSet tid k v = .ok (h.tableSetD tid k v) := by
  cases k with
  | nil => simp [validKey] at hk
  | number bits =>
    simp only [validKey, Bool.not_eq_true'] at hk
    simp [Heap.tableSet, Heap.tableSetD, hk]
  | boolean b => rfl
  | integer i => rfl
  | str s => rfl
  | table t => rfl
  | function f => rfl
  | thread t => rfl
  | userdata u => rfl

/-- C7 (corrected): `new_index` on a table with a valid (non-Nil, non-NaN)
key: a present entry is overwritten in place with no metamethod call; an
absent entry with a nil/missing `__newindex` is stored directly; a
table/user-data `__newindex` defers through the synthetic chain callback and
a function `__newindex` defers directly, in both cases leaving the table
unmodified — but a non-nil `__newindex` that is not callable makes
`new_index` return `Err(MetaOperatorError::Call(NewIndex, _))`, not
`Ok(Some(MetaCall))` as claimed. -/
theorem new_index_spec (h : Heap) (tid : Nat) (k v : Value)
    (hk : validKey k = true) :
    ((h.tableGet tid k).isNil = false →
      meta_ops.new_index h (.table tid) k v =
        .ok (h.tableSetD tid k v, none)) ∧
    ((h.tableGet tid k).isNil = true →
      (meta_ops.tableNewIndexMeta h tid).isNil = true →
      meta_ops.new_index h (.table tid) k v =
        .ok (h.tableSetD tid k v, none)) ∧
    (∀ m, (h.tableGet tid k).isNil = true →
      meta_ops.tableNewIndexMeta h tid = .table m →
      meta_ops.new_index h (.table tid) k v =
        .ok (h, some ⟨.callback .newIndexChain, [.table tid, k, v]⟩)) ∧
    (∀ u, (h.tableGet tid k).isNil = true →
      meta_ops.tableNewIndexMeta h tid = .userdata u →
      meta_ops.new_index h (.table tid) k v =
        .ok (h, some ⟨.callback .newIndexChain, [.table tid, k, v]⟩)) ∧
    (∀ f, (h.tableGet tid k).isNil = true →
      meta_ops.tableNewIndexMeta h tid = .function f →
      meta_ops.new_index h (.table tid) k v =
        .ok (h, some ⟨f, [.table tid, k, v]⟩)) ∧
    (∀ m ce, (h.tableGet tid k).isNil = true →
      meta_ops.tableNewIndexMeta h tid = m →
      meta_ops.isTU m = false → m.isNil = false →
      meta_ops.call h m = .error ce →
      meta_ops.new_index h (.table tid) k v =
        .error (.call .NewIndex ce)) := by
  refine ⟨?_, ?_, ?_, ?_, ?_, ?_⟩
  · intro h1
    simp only [Value.isNil] at h1
    simp [meta_ops.new_index, h1, Value.isNil, tableSet_valid h tid k v hk,
      Except.mapError, bind, Except.bind, pure, Except.pure]
  · intro h1 h2
    simp only [Value.isNil] at h1 h2
    simp [meta_ops.new_index, h1, h2, Value.isNil,
      tableSet_valid h tid k v hk, Except.mapError, bind, Except.bind, pure,
      Except.pure]
  · intro m h1 h2
    simp only [Value.isNil] at h1
    simp [meta_ops.new_index, h1, h2, Value.isNil, bind, Except.bind, pure,
      Except.pure]
  · intro u h1 h2
    simp only [Value.isNil] at h1
    simp [meta_ops.new_index, h1, h2, Value.isNil, bind, Except.bind, pure,
      Except.pure]
  · intro f h1 h2
    simp only [Value.isNil] at h1
    simp [meta_ops.new_index, h1, h2, Value.isNil, meta_ops.call,
      Except.mapError, bind, Except.bind, pure, Except.pure]
  · intro m ce h1 h2 h3 h4 hc
    simp only [Value.isNil] at h1
    cases m <;> simp [meta_ops.isTU] at h3 <;>
      simp [Value.isNil] at h4 <;>
      simp [meta_ops.new_index, h1, h2, hc, Value.isNil, Except.mapError,
        throw, throwThe, MonadExceptOf.throw, bind, Except.bind, pure,
        Except.pure]

/-- C7 witness: `__newindex` is a table, so the write defers through the
synthetic chain callback with args `[t, k, v]`, leaving the heap unchanged. -/
theorem new_index_spec_witness :
    meta_ops.new_index c7wHeap (.table 0) (.integer 1) (.integer 2) =
      .ok (c7wHeap, some ⟨.callback .newIndexChain,
        [.table 0, .integer 1, .integer 2]⟩) :=
  (new_index_spec c7wHeap 0 (.integer 1) (.integer 2) rfl).2.2.1 2 rfl rfl

/-- C7 counterexample: `__newindex = 5`; `new_index` returns
`Err(MetaOperatorError::Call(NewIndex, MetaCallError("number")))`, not the
`Ok(Some(MetaCall))` the claim promises. -/
theorem new_index_cex :
    meta_ops.new_index c7Heap (.table 0) (.integer 1) (.integer 2) =
      .error (.call .NewIndex ⟨"number"⟩) ∧
    newIndexOk (meta_ops.new_index c7Heap (.table 0) (.integer 1)
      (.integer 2)) = false :=
  ⟨rfl, rfl⟩

/-- C8: `index` on a table returns a present entry directly; with a nil or
missing `__index` it returns Nil; a table/user-data `__index` defers one hop
through the synthetic `indexChain` callback with args `[t, k]`; a function
`__index` defers as a call of that function with args `[t, k]`; and the
synthetic callback itself performs exactly one further `index` step — the
metamethod is never executed by `index`. -/
theorem index_spec (h : Heap) (tid : Nat) (k : Value) :
    ((h.tableGet tid k).isNil = false →
      meta_ops.index h (.table tid) k = .ok (.value (h.tableGet tid k))) ∧
    ((h.tableGet tid k).isNil = true →
      (meta_ops.tableIndexMeta h tid).isNil = true →
      meta_ops.index h (.table tid) k = .ok (.value .nil)) ∧
    (∀ m, (h.tableGet tid k).isNil = true →
      meta_ops.tableIndexMeta h tid = .table m →
      meta_ops.index h (.table tid) k =
        .ok (.call ⟨.callback .indexChain, [.table tid, k]⟩)) ∧
    (∀ u, (h.tableGet tid k).isNil = true →
      meta_ops.tableIndexMeta h tid = .userdata u →
      meta_ops.index h (.table tid) k =
        .ok (.call ⟨.callback .indexChain, [.table tid, k]⟩)) ∧
    (∀ f, (h.tableGet tid k).isNil = true →
      meta_ops.tableIndexMeta h tid = .function f →
      meta_ops.index h (.table tid) k =
        .ok (.call ⟨f, [.table tid, k]⟩)) ∧
    (∀ h' t' k', meta_ops.runIndexChain h' [t', k'] =
      (meta_ops.index h' t' k').map
        (fun r => match r with
          | .value v => .ret [v]
          | .call c => .callF c)) := by
  refine ⟨?_, ?_, ?_, ?_, ?_, ?_⟩
  · intro h1
    simp only [Value.isNil] at h1
    simp [meta_ops.index, h1, Value.isNil, bind, Except.bind, pure,
      Except.pure]
  · intro h1 h2
    simp only [Value.isNil] at h1 h2
    simp [meta_ops.index, h1, h2, Value.isNil, bind, Except.bind, pure,
      Except.pure]
  · intro m h1 h2
    simp only [Value.isNil] at h1
    simp [meta_ops.index, h1, h2, Value.isNil, bind, Except.bind, pure,
      Except.pure]
  · intro u h1 h2
    simp only [Value.isNil] at h1
    simp [meta_ops.index, h1, h2, Value.isNil, bind, Except.bind, pure,
      Except.pure]
  · intro f h1 h2
    simp only [Value.isNil] at h1
    simp [meta_ops.index, h1, h2, Value.isNil, meta_ops.call,
      Except.mapError, bind, Except.bind, pure, Except.pure]
  · intro h' t' k'
    cases hix : meta_ops.index h' t' k' with
    | ok r =>
      cases r <;>
        simp [meta_ops.runIndexChain, hix, Except.map, bind, Except.bind,
          pure, Except.pure]
    | error e =>
      simp [meta_ops.runIndexChain, hix, Except.map, bind, Except.bind,
        pure, Except.pure]

/-- C8 witness: `__index` is a table; the lookup defers one hop through the
synthetic chain callback with args `[t, k]`. -/
theorem index_spec_witness :
    meta_ops.index c8wHeap (.table 0) (.str "k") =
      .ok (.call ⟨.callback .indexChain, [.table 0, .str "k"]⟩) :=
  (index_spec c8wHeap 0 (.str "k")).2.2.1 2 rfl rfl

end Luster
